import Mathlib

/-!
Shallow embedding of the `treelock` package (src/treelock/treelock.go) of
the go-winfsp repository, together with proofs about the claims of the
specification.

Modelling conventions:
* The Go pointer graph of `node` objects is embedded as a heap: an
  association list from numeric node ids to node records.  A Go `*node`
  value is an `Option Nat` (`none` is the nil node, which the source
  treats as a permanently read-lockable pseudo parent of the root).
* `uint64` reference counters are `Nat` with the source's explicit
  `math.MaxUint64` checks; the one unchecked decrement (`free`) wraps to
  `U64MAX` exactly as a `uint64` decrement of 0 would.
* `int64` reader counters are `Int` with the source's explicit
  `math.MaxInt64` check.
* Go panics are `Except.error`; `try` failures that return nil locks are
  `none` / a returned `false`-like payload, exactly as in the source.
* Upward recursion over parent pointers (path locking, cascading free)
  is embedded with an explicit fuel argument; the source's recursion
  terminates because the parent graph of a real locker is a tree, and
  all theorems either hold for every fuel or take fuel large enough.
* The `sync.Once` consumption state of lock objects is an explicit
  `done` flag on the lock value; the mutex and wait-channel machinery is
  sequential-state-irrelevant and has no counterpart here.
* `sync.Pool` reuse of children maps is a pure allocation optimization
  with no observable effect and has no counterpart here.
-/

namespace TreeLock

/-- Maximal value of a Go `uint64`, used by the source's overflow checks. -/
def U64MAX : Nat := 2 ^ 64 - 1

/-- Maximal value of a Go `int64` (`math.MaxInt64`). -/
def I64MAX : Int := 2 ^ 63 - 1

/-- Embedding of the Go `node` struct: reference counter, name, parent
pointer, children map, exile flag and reader counter.  The wait channel
of the source is concurrency plumbing with no sequential meaning. -/
structure GoNode where
  rc : Nat
  name : String
  parent : Option Nat
  children : List (String × Nat)
  exile : Bool
  readers : Int
deriving DecidableEq, Repr

/-- Lookup in the node heap (first binding wins). -/
def lookupA : List (Nat × GoNode) → Nat → Option GoNode
  | [], _ => none
  | (j, n) :: rest, i => if j = i then some n else lookupA rest i

/-- Replace the first binding of an id in the node heap (no-op when the
id is absent; the source mutates through pointers, which always hit an
existing object). -/
def setA : List (Nat × GoNode) → Nat → GoNode → List (Nat × GoNode)
  | [], _, _ => []
  | (j, m) :: rest, i, n => if j = i then (j, n) :: rest else (j, m) :: setA rest i n

/-- Go map read `children[name]` on the children association list. -/
def childGet : List (String × Nat) → String → Option Nat
  | [], _ => none
  | (k, v) :: rest, name => if k = name then some v else childGet rest name

/-- Go map write `children[name] = id`. -/
def childSet : List (String × Nat) → String → Nat → List (String × Nat)
  | [], name, i => [(name, i)]
  | (k, v) :: rest, name, i =>
    if k = name then (k, i) :: rest else (k, v) :: childSet rest name i

/-- Go map `delete(children, name)`. -/
def childDel : List (String × Nat) → String → List (String × Nat)
  | [], _ => []
  | (k, v) :: rest, name => if k = name then rest else (k, v) :: childDel rest name

/-- Embedding of a `TreeLocker`: the node heap, the root id, the id used
for the next allocated node, and an identity tag distinguishing lock
objects created by different `TreeLocker`s. -/
structure Tree where
  nodes : List (Nat × GoNode)
  root : Nat
  nextId : Nat
  lockerId : Nat
deriving DecidableEq, Repr

def Tree.find (t : Tree) (i : Nat) : Option GoNode := lookupA t.nodes i

def Tree.set (t : Tree) (i : Nat) (n : GoNode) : Tree :=
  { t with nodes := setA t.nodes i n }

/-- Reader counter of a node id, defaulting to 0 for absent ids. -/
def readersOf (t : Tree) (i : Nat) : Int := ((t.find i).map GoNode.readers).getD 0

/-- Reference counter of a node id, defaulting to 0 for absent ids. -/
def rcOf (t : Tree) (i : Nat) : Nat := ((t.find i).map GoNode.rc).getD 0

/-- Embedding of `New()`: a locker holding only the permanent root node. -/
def newTree : Tree :=
  { nodes := [(0, { rc := 0, name := "", parent := none, children := [],
                    exile := false, readers := 0 })],
    root := 0, nextId := 1, lockerId := 0 }

/-! ### Node allocation and reference counting -/

/-- Allocate a brand new node object: append it to the heap under the
next free id (a fresh Go pointer). -/
def pushNode (t : Tree) (n : GoNode) : Tree :=
  { t with nodes := t.nodes ++ [(t.nextId, n)], nextId := t.nextId + 1 }

/-- The node object `allocClean` creates for a missing child slot:
zero references (the retain happens separately), named, parented,
childless, not exiled, unlocked. -/
def freshChild (base : String) (dirId : Nat) : GoNode :=
  { rc := 0, name := base, parent := some dirId, children := [],
    exile := false, readers := 0 }

/-- One step of `allocClean`: get or allocate a child with the given base
name under a directory node (`dirNode.children[base]` lookup, then the
creation branch bumping the parent's reference counter and inserting the
child into the parent's map).  A missing directory id cannot occur in the
source (pointers do not dangle); the branch returns the pair unchanged. -/
def allocChild (t : Tree) (dirId : Nat) (base : String) : Tree × Nat :=
  match t.find dirId with
  | none => (t, dirId)
  | some dir =>
    match childGet dir.children base with
    | some b => (t, b)
    | none =>
      let newId := t.nextId
      let t2 := (pushNode t (freshChild base dirId)).set dirId
        { dir with rc := if dir.rc = U64MAX then 0 else dir.rc + 1,
                   children := childSet dir.children base newId }
      (t2, newId)

/-- Embedding of `allocClean`.  The source recurses on `path.Split`;
here the already-cleaned slash path is represented by its list of
segments, processed from the root downwards, which is the same
traversal order. -/
def allocCleanFrom (t : Tree) (dirId : Nat) : List String → Tree × Nat
  | [] => (t, dirId)
  | base :: rest =>
    let p := allocChild t dirId base
    allocCleanFrom p.1 p.2 rest

/-- `allocClean` applied from the root; the empty segment list is the
source's `p == "" || p == "." || p == "/"` base case returning the root. -/
def allocClean (t : Tree) (segs : List String) : Tree × Nat :=
  allocCleanFrom t t.root segs

/-- Embedding of `(*node).free`: decrement the reference counter (a
`uint64` decrement, wrapping at 0), and when it reaches 0 unlink the
node from its parent's children map and recursively free the parent.
The recursion over parent pointers uses fuel. -/
def freeF : Nat → Tree → Option Nat → Tree
  | _, t, none => t
  | fuel, t, some i =>
    match t.find i with
    | none => t
    | some n =>
      let r := if n.rc = 0 then U64MAX else n.rc - 1
      let t1 := t.set i { n with rc := r }
      if r = 0 then
        match n.parent with
        | none => t1
        | some p =>
          match t1.find p with
          | none => t1
          | some pn =>
            let t2 := t1.set p { pn with children := childDel pn.children n.name }
            match fuel with
            | 0 => t2
            | fuel2 + 1 => freeF fuel2 t2 (some p)
      else t1

/-- Embedding of `(*node).retain`: increment the reference counter,
with the source's fatal overflow check.  The nil node is permanent and
is not counted. -/
def retain (t : Tree) : Option Nat → Except String Tree
  | none => .ok t
  | some i =>
    match t.find i with
    | none => .ok t
    | some n =>
      if n.rc = U64MAX then .error "too many references"
      else .ok (t.set i { n with rc := n.rc + 1 })

/-- Embedding of `allocRetainClean`: allocate the path, then retain the
resulting node with the fatal overflow check.  `allocClean` never yields
an absent id for a live locker; that branch returns unchanged. -/
def allocRetainClean (t : Tree) (segs : List String) : Except String (Tree × Nat) :=
  let p := allocClean t segs
  match p.1.find p.2 with
  | none => .ok (p.1, p.2)
  | some n =>
    if n.rc = U64MAX then .error "too many references"
    else .ok (p.1.set p.2 { n with rc := n.rc + 1 }, p.2)

/-! ### Node-local locks -/

/-- Embedding of `tryRlockNode` (the `wait` flag only manages the wait
channel and has no sequential effect): the nil node is always
read-lockable; fail under a writer or at the `int64` maximum; otherwise
increment the reader counter. -/
def tryRlockNode (t : Tree) : Option Nat → Option Tree
  | none => some t
  | some i =>
    match t.find i with
    | none => none
    | some n =>
      if n.readers < 0 then none
      else if n.readers = I64MAX then none
      else some (t.set i { n with readers := n.readers + 1 })

/-- Embedding of `runlockNode`: panic unless there is at least one
reader, then decrement. -/
def runlockNode (t : Tree) : Option Nat → Except String Tree
  | none => .ok t
  | some i =>
    match t.find i with
    | none => .ok t
    | some n =>
      if n.readers ≤ 0 then .error "invalid node state to read unlock"
      else .ok (t.set i { n with readers := n.readers - 1 })

/-- Embedding of `tryWLockNode`: fail on the nil node or any reader or
writer; otherwise set the writer mark `-1`. -/
def tryWLockNode (t : Tree) : Option Nat → Option Tree
  | none => none
  | some i =>
    match t.find i with
    | none => none
    | some n =>
      if n.readers ≠ 0 then none
      else some (t.set i { n with readers := -1 })

/-- Embedding of `wunlockNode`: panic on the nil node or when no writer
holds the node, then clear the writer mark (waking readers is wait
channel plumbing). -/
def wunlockNode (t : Tree) : Option Nat → Except String Tree
  | none => .error "nil node can never be write locked"
  | some i =>
    match t.find i with
    | none => .ok t
    | some n =>
      if n.readers ≠ -1 then .error "invalid node state to write unlock"
      else .ok (t.set i { n with readers := 0 })

/-- Embedding of `unlockNode`: dispatch on the lock mode. -/
def unlockNode (t : Tree) (oi : Option Nat) (write : Bool) : Except String Tree :=
  if write then wunlockNode t oi else runlockNode t oi

/-! ### Path locks -/

/-- Embedding of `tryRLockPath`: read-lock the whole parent chain, then
the node itself; any failure aborts the attempt (the source releases the
partial ancestor locks, which in this pure embedding is just discarding
the intermediate state).  The result is `some` of the locked state on
success, mirroring `blocker == nil`. -/
def tryRLockPathF : Nat → Tree → Option Nat → Option Tree
  | _, t, none => some t
  | 0, _, some _ => none
  | fuel + 1, t, some i =>
    match t.find i with
    | none => none
    | some n =>
      match tryRLockPathF fuel t n.parent with
      | none => none
      | some t1 => tryRlockNode t1 (some i)

/-- Embedding of `runlockPath`: release the node's read lock, then the
parent chain's, innermost first. -/
def runlockPathF : Nat → Tree → Option Nat → Except String Tree
  | _, t, none => .ok t
  | 0, _, some _ => .error "fuel exhausted"
  | fuel + 1, t, some i =>
    match t.find i with
    | none => .ok t
    | some n =>
      match runlockNode t (some i) with
      | .error e => .error e
      | .ok t1 => runlockPathF fuel t1 n.parent

/-- Embedding of `unlockPath`: release the target node in its mode, then
the ancestor chain's read locks. -/
def unlockPathF (fuel : Nat) (t : Tree) (oi : Option Nat) (write : Bool) :
    Except String Tree :=
  match oi with
  | none => .ok t
  | some i =>
    match t.find i with
    | none => .ok t
    | some n =>
      match unlockNode t (some i) write with
      | .error e => .error e
      | .ok t1 => runlockPathF fuel t1 n.parent

/-- Embedding of `tryWLockPath`: fail on the nil node or when the target
has any reader or writer; read-lock the parent chain; then write-lock
the node itself. -/
def tryWLockPathF (fuel : Nat) (t : Tree) (oi : Option Nat) : Option Tree :=
  match oi with
  | none => none
  | some i =>
    match t.find i with
    | none => none
    | some n =>
      if n.readers ≠ 0 then none
      else
        match tryRLockPathF fuel t n.parent with
        | none => none
        | some t1 => tryWLockNode t1 (some i)

/-! ### Lock objects -/

/-- Embedding of a `*PathLock`: the node it guards, its mode, the
identity of the `TreeLocker` that created it, and the `sync.Once`
consumption flag. -/
structure PathLockObj where
  node : Option Nat
  write : Bool
  lockerId : Nat
  done : Bool
deriving DecidableEq, Repr

/-- Embedding of a `*NodeLock`, same shape as a path lock object. -/
structure NodeLockObj where
  node : Option Nat
  write : Bool
  lockerId : Nat
  done : Bool
deriving DecidableEq, Repr

/-- Embedding of `createPathLock` on its success path: retain the node
(the failure defers only run when a panic is propagating). -/
def createPathLock (t : Tree) (oi : Option Nat) (write : Bool) :
    Except String (Tree × PathLockObj) :=
  match retain t oi with
  | .error e => .error e
  | .ok t1 => .ok (t1, { node := oi, write := write, lockerId := t.lockerId, done := false })

/-- Embedding of `createNodeLock` on its success path. -/
def createNodeLock (t : Tree) (oi : Option Nat) (write : Bool) :
    Except String (Tree × NodeLockObj) :=
  match retain t oi with
  | .error e => .error e
  | .ok t1 => .ok (t1, { node := oi, write := write, lockerId := t.lockerId, done := false })

/-- Embedding of `PathLock.Unlock`: the `sync.Once` makes a second call
a no-op; the first call releases the path lock and then frees the
lock's node reference (`unlockLocked`'s defer order). -/
def pathLockUnlock (fuel : Nat) (t : Tree) (pl : PathLockObj) :
    Except String (Tree × PathLockObj) :=
  if pl.done then .ok (t, pl)
  else
    match unlockPathF fuel t pl.node pl.write with
    | .error e => .error e
    | .ok t1 => .ok (freeF fuel t1 pl.node, { pl with done := true })

/-- Embedding of `NodeLock.Unlock`, analogous to `PathLock.Unlock`. -/
def nodeLockUnlock (fuel : Nat) (t : Tree) (nl : NodeLockObj) :
    Except String (Tree × NodeLockObj) :=
  if nl.done then .ok (t, nl)
  else
    match unlockNode t nl.node nl.write with
    | .error e => .error e
    | .ok t1 => .ok (freeF fuel t1 nl.node, { nl with done := true })

/-- Embedding of `tryWLockClean` (the body of `TryWLockSlash` /
`TryWLockFile` after path cleaning): allocate and retain the node, try
the write path lock, wrap it on success, and run the deferred
`node.free()` in every return path. -/
def tryWLockClean (fuel : Nat) (t : Tree) (segs : List String) :
    Except String (Tree × Option PathLockObj) :=
  match allocRetainClean t segs with
  | .error e => .error e
  | .ok (t1, i) =>
    match tryWLockPathF fuel t1 (some i) with
    | none => .ok (freeF fuel t1 (some i), none)
    | some t2 =>
      match createPathLock t2 (some i) true with
      | .error e => .error e
      | .ok (t3, pl) => .ok (freeF fuel t3 (some i), some pl)

/-- Embedding of `tryRLockClean`, read-mode counterpart of
`tryWLockClean`. -/
def tryRLockClean (fuel : Nat) (t : Tree) (segs : List String) :
    Except String (Tree × Option PathLockObj) :=
  match allocRetainClean t segs with
  | .error e => .error e
  | .ok (t1, i) =>
    match tryRLockPathF fuel t1 (some i) with
    | none => .ok (freeF fuel t1 (some i), none)
    | some t2 =>
      match createPathLock t2 (some i) false with
      | .error e => .error e
      | .ok (t3, pl) => .ok (freeF fuel t3 (some i), some pl)

/-- Embedding of `allocCleanPath` (the body of `AllocSlash` /
`AllocFile` after cleaning): allocate and retain, wrap into a `Node`
handle via `createNode` (one more retain), then run the deferred free.
The handle is represented by the node id. -/
def allocCleanPathM (fuel : Nat) (t : Tree) (segs : List String) :
    Except String (Tree × Nat) :=
  match allocRetainClean t segs with
  | .error e => .error e
  | .ok (t1, i) =>
    match retain t1 (some i) with
    | .error e => .error e
    | .ok t2 => .ok (freeF fuel t2 (some i), i)

/-- Embedding of `TryUpgrade`: panic when called on a write lock (and,
through the nil `n.node.readers` dereference, on a nil-node lock);
return `false` leaving everything unchanged unless the lock's node has
exactly one reader; otherwise install the writer mark and flip the
lock's mode. -/
def tryUpgrade (t : Tree) (nl : NodeLockObj) :
    Except String (Tree × NodeLockObj × Bool) :=
  if nl.write then .error "must only upgrade a read lock"
  else
    match nl.node with
    | none => .error "nil pointer dereference"
    | some i =>
      match t.find i with
      | none => .ok (t, nl, false)
      | some n =>
        if n.readers ≠ 1 then .ok (t, nl, false)
        else .ok (t.set i { n with readers := -1 }, { nl with write := true }, true)

/-- Embedding of `Downgrade`: panic when called on a read lock or when
the node is not write-locked; otherwise leave a single reader. -/
def downgrade (t : Tree) (nl : NodeLockObj) :
    Except String (Tree × NodeLockObj) :=
  if !nl.write then .error "must only downgrade a write lock"
  else
    match nl.node with
    | none => .error "nil pointer dereference"
    | some i =>
      match t.find i with
      | none => .ok (t, nl)
      | some n =>
        if n.readers ≠ -1 then .error "invalid node state to downgrade"
        else .ok (t.set i { n with readers := 1 }, { nl with write := false })

/-! ### Exchange, Split, Join, Exile -/

/-- Update a node object in place when it exists, as a Go field
assignment through a live pointer does. -/
def modifyNode (t : Tree) (i : Nat) (f : GoNode → GoNode) : Tree :=
  match t.find i with
  | none => t
  | some n => t.set i (f n)

/-- Repoint a (possibly nil) parent's child-map entry for a name at
another node (`parent.children[name] = node` in `Exchange`, a no-op for
a nil parent). -/
def setParentEntry (t : Tree) (op : Option Nat) (name : String) (child : Nat) : Tree :=
  match op with
  | none => t
  | some pp => modifyNode t pp fun pn => { pn with children := childSet pn.children name child }

/-- Test whether a recorded parent's child-map entry for a name no
longer points at the expected node (`parent.children[name] != node` in
`Exchange`, vacuously false for a nil parent). -/
def parentEntryMismatch (t : Tree) (op : Option Nat) (name : String) (i : Nat) : Bool :=
  match op with
  | none => false
  | some pp => ((t.find pp).bind fun pn => childGet pn.children name) ≠ some i

/-- Embedding of `Exchange`: the source's checks in order (same locker,
both write locks — which excludes nil nodes —, each recorded parent's
child-map entry still points at the lock's node, no resurrection of an
exiled subtree that still has children), then the four mutations in
source order: repoint the first parent's entry, move the second node
into the first triple, repoint the second parent's entry, move the
first node into the second triple. -/
def exchange (t : Tree) (p1 p2 : PathLockObj) : Except String Tree :=
  if p1.lockerId ≠ p2.lockerId then .error "must be created from the same TreeLocker"
  else if ¬ (p1.write ∧ p2.write) then .error "must be write locks"
  else
    match p1.node, p2.node with
    | some i1, some i2 =>
      match t.find i1, t.find i2 with
      | some n1, some n2 =>
        let p1Name := n1.name
        let p2Name := n2.name
        let p1Parent := n1.parent
        let p2Parent := n2.parent
        if parentEntryMismatch t p1Parent p1Name i1 ∨
           parentEntryMismatch t p2Parent p2Name i2 then .error "children mismatch"
        else
          let p1Exile := n1.exile
          let p2Exile := n2.exile
          if (p1Exile ∧ ¬ p2Exile ∧ n1.children ≠ []) ∨
             (p2Exile ∧ ¬ p1Exile ∧ n2.children ≠ []) then
            .error "cannot resurrent exiled tree"
          else
            let t1 := setParentEntry t p1Parent p1Name i2
            let t2 := modifyNode t1 i2 fun n =>
              { n with name := p1Name, parent := p1Parent, exile := p1Exile }
            let t3 := setParentEntry t2 p2Parent p2Name i1
            let t4 := modifyNode t3 i1 fun n =>
              { n with name := p2Name, parent := p2Parent, exile := p2Exile }
            .ok t4
      | _, _ => .error "dangling node"
    | _, _ => .error "nil node cannot be write locked"

/-- Embedding of `Split`: consume the path lock (panicking when it
already was consumed), read-path-lock-wrap its parent (no new node
locking happens: `createPathLock` only retains), node-lock-wrap the
node in the original mode, then free the consumed lock's reference. -/
def split (fuel : Nat) (t : Tree) (pl : PathLockObj) :
    Except String (Tree × PathLockObj × NodeLockObj) :=
  if pl.done then .error "pathlock already consumed"
  else
    let parentNode : Option Nat :=
      match pl.node with
      | none => none
      | some i => ((t.find i).map GoNode.parent).getD none
    match createPathLock t parentNode false with
    | .error e => .error e
    | .ok (t1, parentLock) =>
      match createNodeLock t1 pl.node pl.write with
      | .error e => .error e
      | .ok (t2, nodeLock) => .ok (freeF fuel t2 pl.node, parentLock, nodeLock)

/-- Embedding of `Join`: consume both locks (panicking on an already
consumed one), check same locker, parent lock in read mode, and that the
node lock's parent is exactly the parent lock's node (the source
dereferences `nl.node.parent`, so a nil node lock with a nil parent lock
is a nil dereference), then wrap the node in the node lock's mode and
free both consumed references. -/
def join (fuel : Nat) (t : Tree) (pl : PathLockObj) (nl : NodeLockObj) :
    Except String (Tree × PathLockObj) :=
  if pl.done then .error "parent pathlock already consumed"
  else if nl.done then .error "nodelock already consumed"
  else if pl.lockerId ≠ nl.lockerId then .error "must be created from the same TreeLocker"
  else if pl.write then .error "parent must only be read lock"
  else
    match nl.node with
    | none =>
      if pl.node.isSome then .error "parent pathlock is not parent of the nodelock"
      else .error "nil pointer dereference"
    | some i =>
      match t.find i with
      | none => .error "dangling node"
      | some n =>
        if n.parent ≠ pl.node then .error "parent pathlock is not parent of the nodelock"
        else
          match createPathLock t (some i) nl.write with
          | .error e => .error e
          | .ok (t1, joined) =>
            let t2 := freeF fuel t1 (some i)
            .ok (freeF fuel t2 pl.node, joined)

/-- Embedding of `allocRetainExile`: a fresh, already retained,
parentless exile node. -/
def allocRetainExile (t : Tree) : Tree × Nat :=
  (pushNode t
    { rc := 1, name := "", parent := none, children := [], exile := true, readers := 0 },
   t.nextId)

/-- Embedding of `WLockExile`: allocate a retained exile node, try the
write path lock on it (panicking if that fails), wrap it, and run the
deferred free. -/
def wLockExile (fuel : Nat) (t : Tree) : Except String (Tree × PathLockObj) :=
  let p := allocRetainExile t
  match tryWLockPathF fuel p.1 (some p.2) with
  | none => .error "write lock exile failed"
  | some t1 =>
    match createPathLock t1 (some p.2) true with
    | .error e => .error e
    | .ok (t2, pl) => .ok (freeF fuel t2 (some p.2), pl)

/-! ### Path cleaning -/

/-- Splitting a slash path into its raw segments, character by
character (the effect of splitting on `'/'`). -/
def splitSlashChars (cur : List Char) : List Char → List String
  | [] => [String.mk cur.reverse]
  | c :: cs =>
    if c = '/' then String.mk cur.reverse :: splitSlashChars [] cs
    else splitSlashChars (c :: cur) cs

/-- Lexical cleaning of the segments of a rooted path, processed onto a
reversed stack: empty and `.` segments vanish, `..` pops the last kept
segment and is dropped at the root (the "root cage" of
`path.Clean(path.Join("/", p))` on a rooted path). -/
def cleanRev (stack : List String) : List String → List String
  | [] => stack
  | s :: rest =>
    if s = "" ∨ s = "." then cleanRev stack rest
    else if s = ".." then cleanRev stack.tail rest
    else cleanRev (s :: stack) rest

/-- Embedding of `cleanSlashPath`, returning the canonical segment list
of the cleaned rooted path (the empty list is the root `/`). -/
def cleanSegs (p : String) : List String :=
  (cleanRev [] (splitSlashChars [] p.data)).reverse

/-- Slash-separated chain of `n + 1` `..` segments (`..`, `../..`, …). -/
def dotsChain : Nat → String
  | 0 => ".."
  | n + 1 => dotsChain n ++ "/.."

/-! ### Observation helpers for the theorems -/

/-- Projection of a node forgetting both counters, keeping the
structural fields (name, parent, children, exile). -/
def shapeOf (n : GoNode) : GoNode := { n with rc := 0, readers := 0 }

/-- Projection of a node forgetting only the reader counter. -/
def chillOf (n : GoNode) : GoNode := { n with readers := 0 }

/-- Two states that agree on everything except reader counters. -/
def EqButReaders (t1 t2 : Tree) : Prop :=
  t1.root = t2.root ∧ t1.nextId = t2.nextId ∧ t1.lockerId = t2.lockerId ∧
    ∀ j, (t1.find j).map chillOf = (t2.find j).map chillOf

/-- Two states that agree on all structural fields (name, parent,
children, exile) and on which ids are live, counters aside. -/
def EqShape (t1 t2 : Tree) : Prop :=
  t1.root = t2.root ∧ t1.nextId = t2.nextId ∧ t1.lockerId = t2.lockerId ∧
    ∀ j, (t1.find j).map shapeOf = (t2.find j).map shapeOf

/-- The node-local lock operations of the source, acting on one node. -/
inductive NodeOp where
  | tryR
  | tryW
  | unlockR
  | unlockW
  | upgrade
  | downgrade
deriving DecidableEq, Repr

/-- Apply one node-local operation at a node id, `none` when the
operation either fails (a `try` returning no lock / `false`) or panics;
in both cases the sequence continues from the unchanged state, which
over-approximates the source (a panic stops the program). `upgrade` and
`downgrade` act through a lock object of the matching mode, isolating
their effect on the node state. -/
def applyNodeOp (t : Tree) (i : Nat) : NodeOp → Option Tree
  | .tryR => tryRlockNode t (some i)
  | .tryW => tryWLockNode t (some i)
  | .unlockR => (runlockNode t (some i)).toOption
  | .unlockW => (wunlockNode t (some i)).toOption
  | .upgrade =>
    (tryUpgrade t { node := some i, write := false, lockerId := t.lockerId, done := false
                  }).toOption.map Prod.fst
  | .downgrade =>
    (downgrade t { node := some i, write := true, lockerId := t.lockerId, done := false
                 }).toOption.map Prod.fst

/-- Run a sequence of node-local operations at a node id, failed or
panicking operations leaving the state unchanged. -/
def runNodeOps (t : Tree) (i : Nat) : List NodeOp → Tree
  | [] => t
  | op :: rest => runNodeOps ((applyNodeOp t i op).getD t) i rest

/-- Concrete example locker: the state of a fresh locker after
write-path-locking `/a/b` and `/c/d` (ids: root 0, a 1, b 2, c 3, d 4). -/
def exchTree : Tree :=
  { nodes := [(0, ⟨2, "", none, [("a", 1), ("c", 3)], false, 2⟩),
              (1, ⟨1, "a", some 0, [("b", 2)], false, 1⟩),
              (2, ⟨1, "b", some 1, [], false, -1⟩),
              (3, ⟨1, "c", some 0, [("d", 4)], false, 1⟩),
              (4, ⟨1, "d", some 3, [], false, -1⟩)],
    root := 0, nextId := 5, lockerId := 0 }

/-- The example locker after `Exchange` of the write locks on `/a/b`
and `/c/d`. -/
def exchTreeSwapped : Tree :=
  { nodes := [(0, ⟨2, "", none, [("a", 1), ("c", 3)], false, 2⟩),
              (1, ⟨1, "a", some 0, [("b", 4)], false, 1⟩),
              (2, ⟨1, "d", some 3, [], false, -1⟩),
              (3, ⟨1, "c", some 0, [("d", 2)], false, 1⟩),
              (4, ⟨1, "b", some 1, [], false, -1⟩)],
    root := 0, nextId := 5, lockerId := 0 }

/-- The state after a successful `tryWLockClean` on `/a` from a fresh
locker: a read lock on the root (readers 1) and a write lock on the new
child `a` (readers -1), each node holding one path-lock reference. -/
def lockATree : Tree :=
  { nodes := [(0, { rc := 1, name := "", parent := none, children := [("a", 1)],
                    exile := false, readers := 1 }),
              (1, { rc := 1, name := "a", parent := some 0, children := [],
                    exile := false, readers := -1 })],
    root := 0, nextId := 2, lockerId := 0 }

/-- The state after further write-locking `/b`: both sibling write locks
are held and the shared root carries two read locks. -/
def lockABTree : Tree :=
  { nodes := [(0, { rc := 2, name := "", parent := none, children := [("a", 1), ("b", 2)],
                    exile := false, readers := 2 }),
              (1, { rc := 1, name := "a", parent := some 0, children := [],
                    exile := false, readers := -1 }),
              (2, { rc := 1, name := "b", parent := some 0, children := [],
                    exile := false, readers := -1 })],
    root := 0, nextId := 3, lockerId := 0 }

/-- The state in the middle of a split of the write lock on `/a`: the
parent piece holds one more root reference. -/
def splitATree : Tree :=
  { nodes := [(0, { rc := 2, name := "", parent := none, children := [("a", 1)],
                    exile := false, readers := 1 }),
              (1, { rc := 1, name := "a", parent := some 0, children := [],
                    exile := false, readers := -1 })],
    root := 0, nextId := 2, lockerId := 0 }

/-- The state after unlocking the write lock on `/a`: all reader
counters are back to zero and the dead `a` node has been unlinked. -/
def unlockedATree : Tree :=
  { nodes := [(0, { rc := 0, name := "", parent := none, children := [],
                    exile := false, readers := 0 }),
              (1, { rc := 0, name := "a", parent := some 0, children := [],
                    exile := false, readers := 0 })],
    root := 0, nextId := 2, lockerId := 0 }

/-! ### Heap lemmas -/


@[simp]
theorem lookupA_setA_self (l : List (Nat × GoNode)) (i : Nat) (n : GoNode) :
    lookupA (setA l i n) i = (lookupA l i).map fun _ => n := by
  induction l with
  | nil => rfl
  | cons hd tl ih =>
    obtain ⟨j, m⟩ := hd
    by_cases h : j = i
    · simp [setA, lookupA, h]
    · simp [setA, lookupA, h, ih]

theorem lookupA_setA_ne (l : List (Nat × GoNode)) {i j : Nat} (n : GoNode) (h : j ≠ i) :
    lookupA (setA l i n) j = lookupA l j := by
  induction l with
  | nil => rfl
  | cons hd tl ih =>
    obtain ⟨k, m⟩ := hd
    by_cases hk : k = i
    · subst hk
      simp [setA, lookupA, Ne.symm h]
    · simp only [setA, if_neg hk, lookupA]
      by_cases hkj : k = j <;> simp [hkj, ih]

theorem setA_setA (l : List (Nat × GoNode)) (i : Nat) (n m : GoNode) :
    setA (setA l i n) i m = setA l i m := by
  induction l with
  | nil => rfl
  | cons hd tl ih =>
    obtain ⟨j, p⟩ := hd
    by_cases h : j = i <;> simp [setA, h, ih]

theorem setA_of_lookup (l : List (Nat × GoNode)) {i : Nat} {n : GoNode}
    (h : lookupA l i = some n) : setA l i n = l := by
  induction l with
  | nil => rfl
  | cons hd tl ih =>
    obtain ⟨j, m⟩ := hd
    by_cases hj : j = i
    · simp only [lookupA, if_pos hj, Option.some.injEq] at h
      subst h
      simp [setA, hj]
    · simp only [lookupA, if_neg hj] at h
      simp [setA, hj, ih h]

theorem lookupA_append (l1 l2 : List (Nat × GoNode)) (i : Nat) :
    lookupA (l1 ++ l2) i =
      match lookupA l1 i with
      | some n => some n
      | none => lookupA l2 i := by
  induction l1 with
  | nil => simp [lookupA]
  | cons hd tl ih =>
    obtain ⟨j, m⟩ := hd
    by_cases h : j = i <;> simp [lookupA, h, ih]

theorem setA_append_left (l1 l2 : List (Nat × GoNode)) {i : Nat} (n : GoNode)
    (h : (lookupA l1 i).isSome) : setA (l1 ++ l2) i n = setA l1 i n ++ l2 := by
  induction l1 with
  | nil => simp [lookupA] at h
  | cons hd tl ih =>
    obtain ⟨j, m⟩ := hd
    by_cases hj : j = i
    · simp [setA, hj]
    · simp only [lookupA, if_neg hj, Option.isSome] at h
      simp [setA, hj, ih h]

@[simp]
theorem childGet_childSet_self (cs : List (String × Nat)) (name : String) (i : Nat) :
    childGet (childSet cs name i) name = some i := by
  induction cs with
  | nil => simp [childSet, childGet]
  | cons hd tl ih =>
    obtain ⟨k, v⟩ := hd
    by_cases h : k = name <;> simp [childSet, childGet, h, ih]

theorem childGet_childSet_ne (cs : List (String × Nat)) {name k : String} (i : Nat)
    (h : k ≠ name) : childGet (childSet cs name i) k = childGet cs k := by
  induction cs with
  | nil => simp [childSet, childGet, Ne.symm h]
  | cons hd tl ih =>
    obtain ⟨k2, v⟩ := hd
    by_cases hk : k2 = name
    · subst hk
      simp [childSet, childGet, Ne.symm h]
    · simp only [childSet, if_neg hk, childGet]
      by_cases hk2 : k2 = k <;> simp [hk2, ih]

@[simp]
theorem Tree.find_set_self (t : Tree) (i : Nat) (n : GoNode) :
    (t.set i n).find i = (t.find i).map fun _ => n :=
  lookupA_setA_self t.nodes i n

theorem Tree.find_set_ne (t : Tree) {i j : Nat} (n : GoNode) (h : j ≠ i) :
    (t.set i n).find j = t.find j :=
  lookupA_setA_ne t.nodes n h

@[simp]
theorem Tree.set_set (t : Tree) (i : Nat) (n m : GoNode) :
    (t.set i n).set i m = t.set i m := by
  simp [Tree.set, setA_setA]

theorem Tree.set_of_find (t : Tree) {i : Nat} {n : GoNode} (h : t.find i = some n) :
    t.set i n = t := by
  show { t with nodes := setA t.nodes i n } = t
  rw [setA_of_lookup t.nodes h]

@[simp]
theorem Tree.root_set (t : Tree) (i : Nat) (n : GoNode) : (t.set i n).root = t.root := rfl

@[simp]
theorem Tree.nextId_set (t : Tree) (i : Nat) (n : GoNode) : (t.set i n).nextId = t.nextId := rfl

@[simp]
theorem Tree.lockerId_set (t : Tree) (i : Nat) (n : GoNode) :
    (t.set i n).lockerId = t.lockerId := rfl

theorem Tree.find_set (t : Tree) (i j : Nat) (n : GoNode) :
    (t.set i n).find j = if j = i then (t.find i).map fun _ => n else t.find j := by
  by_cases h : j = i
  · subst h; simp
  · simp [Tree.find_set_ne t n h, h]


/-! ### State similarity and preservation lemmas -/

@[simp]
theorem chillOf_readers (n : GoNode) (x : Int) :
    chillOf { n with readers := x } = chillOf n := rfl

@[simp]
theorem shapeOf_readers (n : GoNode) (x : Int) :
    shapeOf { n with readers := x } = shapeOf n := rfl

@[simp]
theorem shapeOf_rc (n : GoNode) (x : Nat) :
    shapeOf { n with rc := x } = shapeOf n := rfl

@[simp]
theorem shapeOf_chillOf (n : GoNode) : shapeOf (chillOf n) = shapeOf n := rfl

@[simp]
theorem GoNode.eta_rc (n : GoNode) : { n with rc := n.rc } = n := rfl

@[simp]
theorem GoNode.eta_readers (n : GoNode) : { n with readers := n.readers } = n := rfl

theorem eqButReaders_refl (t : Tree) : EqButReaders t t := ⟨rfl, rfl, rfl, fun _ => rfl⟩

theorem eqButReaders_trans {t1 t2 t3 : Tree} (h1 : EqButReaders t1 t2)
    (h2 : EqButReaders t2 t3) : EqButReaders t1 t3 :=
  ⟨h1.1.trans h2.1, h1.2.1.trans h2.2.1, h1.2.2.1.trans h2.2.2.1,
    fun j => (h1.2.2.2 j).trans (h2.2.2.2 j)⟩

theorem eqShape_refl (t : Tree) : EqShape t t := ⟨rfl, rfl, rfl, fun _ => rfl⟩

theorem eqShape_trans {t1 t2 t3 : Tree} (h1 : EqShape t1 t2) (h2 : EqShape t2 t3) :
    EqShape t1 t3 :=
  ⟨h1.1.trans h2.1, h1.2.1.trans h2.2.1, h1.2.2.1.trans h2.2.2.1,
    fun j => (h1.2.2.2 j).trans (h2.2.2.2 j)⟩

theorem shape_eq_chill (o : Option GoNode) : o.map shapeOf = (o.map chillOf).map shapeOf := by
  cases o <;> simp

theorem EqButReaders.toShape {t1 t2 : Tree} (h : EqButReaders t1 t2) : EqShape t1 t2 :=
  ⟨h.1, h.2.1, h.2.2.1, fun j => by
    rw [shape_eq_chill, h.2.2.2 j, ← shape_eq_chill]⟩

theorem eqButReaders_set {t : Tree} {i : Nat} {n m : GoNode} (hf : t.find i = some n)
    (hc : chillOf m = chillOf n) : EqButReaders t (t.set i m) := by
  refine ⟨rfl, rfl, rfl, fun j => ?_⟩
  by_cases hj : j = i
  · subst hj
    simp [hf, hc]
  · rw [Tree.find_set_ne t m hj]

theorem eqShape_set {t : Tree} {i : Nat} {n m : GoNode} (hf : t.find i = some n)
    (hc : shapeOf m = shapeOf n) : EqShape t (t.set i m) := by
  refine ⟨rfl, rfl, rfl, fun j => ?_⟩
  by_cases hj : j = i
  · subst hj
    simp [hf, hc]
  · rw [Tree.find_set_ne t m hj]

theorem tryRlockNode_eqButReaders {t : Tree} {oi : Option Nat} {t2 : Tree}
    (h : tryRlockNode t oi = some t2) : EqButReaders t t2 := by
  cases oi with
  | none =>
    cases h
    exact eqButReaders_refl t
  | some i =>
    simp only [tryRlockNode] at h
    cases hf : t.find i with
    | none => rw [hf] at h; cases h
    | some n =>
      rw [hf] at h
      by_cases h1 : n.readers < 0
      · simp [h1] at h
      by_cases h2 : n.readers = I64MAX
      · simp [h1, h2] at h
      simp only [if_neg h1, if_neg h2, Option.some.injEq] at h
      subst h
      exact eqButReaders_set hf (by simp)

theorem tryWLockNode_eqButReaders {t : Tree} {oi : Option Nat} {t2 : Tree}
    (h : tryWLockNode t oi = some t2) : EqButReaders t t2 := by
  cases oi with
  | none => cases h
  | some i =>
    simp only [tryWLockNode] at h
    cases hf : t.find i with
    | none => rw [hf] at h; cases h
    | some n =>
      rw [hf] at h
      by_cases h1 : n.readers ≠ 0
      · simp [h1] at h
      simp only [if_neg h1, Option.some.injEq] at h
      subst h
      exact eqButReaders_set hf (by simp)

theorem runlockNode_eqButReaders {t : Tree} {oi : Option Nat} {t2 : Tree}
    (h : runlockNode t oi = .ok t2) : EqButReaders t t2 := by
  cases oi with
  | none =>
    cases h
    exact eqButReaders_refl t
  | some i =>
    simp only [runlockNode] at h
    cases hf : t.find i with
    | none =>
      rw [hf] at h
      cases h
      exact eqButReaders_refl t
    | some n =>
      rw [hf] at h
      by_cases h1 : n.readers ≤ 0
      · simp [h1] at h
      simp only [if_neg h1, Except.ok.injEq] at h
      subst h
      exact eqButReaders_set hf (by simp)

theorem wunlockNode_eqButReaders {t : Tree} {oi : Option Nat} {t2 : Tree}
    (h : wunlockNode t oi = .ok t2) : EqButReaders t t2 := by
  cases oi with
  | none => cases h
  | some i =>
    simp only [wunlockNode] at h
    cases hf : t.find i with
    | none =>
      rw [hf] at h
      cases h
      exact eqButReaders_refl t
    | some n =>
      rw [hf] at h
      by_cases h1 : n.readers ≠ -1
      · simp [h1] at h
      simp only [if_neg h1, Except.ok.injEq] at h
      subst h
      exact eqButReaders_set hf (by simp)

theorem tryRLockPathF_eqButReaders :
    ∀ (fuel : Nat) (oi : Option Nat) (t t2 : Tree),
      tryRLockPathF fuel t oi = some t2 → EqButReaders t t2 := by
  intro fuel
  induction fuel with
  | zero =>
    intro oi t t2 h
    cases oi with
    | none =>
      cases h
      exact eqButReaders_refl t
    | some i => simp [tryRLockPathF] at h
  | succ fuel ih =>
    intro oi t t2 h
    cases oi with
    | none =>
      cases h
      exact eqButReaders_refl t
    | some i =>
      simp only [tryRLockPathF] at h
      split at h
      next => cases h
      next n hf =>
        split at h
        next => cases h
        next t1 hrec => exact eqButReaders_trans (ih _ _ _ hrec) (tryRlockNode_eqButReaders h)

theorem tryWLockPathF_eqButReaders {fuel : Nat} {oi : Option Nat} {t t2 : Tree}
    (h : tryWLockPathF fuel t oi = some t2) : EqButReaders t t2 := by
  cases oi with
  | none => cases h
  | some i =>
    simp only [tryWLockPathF] at h
    split at h
    next => cases h
    next n hf =>
      split at h
      next => cases h
      next h0 =>
        split at h
        next => cases h
        next t1 hrec =>
          exact eqButReaders_trans (tryRLockPathF_eqButReaders fuel _ t t1 hrec) (tryWLockNode_eqButReaders h)

theorem freeF_absent (fuel : Nat) (t : Tree) (i : Nat) (h : t.find i = none) :
    freeF fuel t (some i) = t := by
  unfold freeF
  rw [h]

theorem freeF_no_cascade (fuel : Nat) (t : Tree) {i : Nat} {n : GoNode}
    (hf : t.find i = some n) (h2 : 2 ≤ n.rc) :
    freeF fuel t (some i) = t.set i { n with rc := n.rc - 1 } := by
  have h0 : ¬ (n.rc = 0) := by omega
  have h1 : ¬ (n.rc - 1 = 0) := by omega
  unfold freeF
  rw [hf]
  simp only [if_neg h0, if_neg h1, ite_false]

theorem retain_free_cancel (fuel : Nat) (t : Tree) {i : Nat} {n : GoNode}
    (hf : t.find i = some n) (h1 : 1 ≤ n.rc) :
    freeF fuel (t.set i { n with rc := n.rc + 1 }) (some i) = t := by
  have hfind : (t.set i { n with rc := n.rc + 1 }).find i = some { n with rc := n.rc + 1 } := by
    simp [hf]
  rw [freeF_no_cascade fuel _ hfind (by simp; omega)]
  simp only [Tree.set_set]
  have : n.rc + 1 - 1 = n.rc := by omega
  rw [this, GoNode.eta_rc, Tree.set_of_find t hf]

theorem chill_parent {a b : GoNode} (h : chillOf a = chillOf b) : a.parent = b.parent := by
  have h2 := congrArg GoNode.parent h
  exact h2

theorem chill_rc {a b : GoNode} (h : chillOf a = chillOf b) : a.rc = b.rc := by
  have h2 := congrArg GoNode.rc h
  exact h2

theorem chill_name {a b : GoNode} (h : chillOf a = chillOf b) : a.name = b.name := by
  have h2 := congrArg GoNode.name h
  exact h2

theorem chill_children {a b : GoNode} (h : chillOf a = chillOf b) : a.children = b.children := by
  have h2 := congrArg GoNode.children h
  exact h2

theorem chill_exile {a b : GoNode} (h : chillOf a = chillOf b) : a.exile = b.exile := by
  have h2 := congrArg GoNode.exile h
  exact h2

theorem eqButReaders_find_some {t1 t2 : Tree} (h : EqButReaders t1 t2) {i : Nat} {n1 : GoNode}
    (hf : t1.find i = some n1) : ∃ n2, t2.find i = some n2 ∧ chillOf n2 = chillOf n1 := by
  have h4 := h.2.2.2 i
  rw [hf] at h4
  cases hf2 : t2.find i with
  | none => rw [hf2] at h4; simp at h4
  | some n2 =>
    rw [hf2] at h4
    exact ⟨n2, rfl, (Option.some.inj h4).symm⟩

theorem readersOf_set {t : Tree} {i : Nat} {n m : GoNode} (hf : t.find i = some n)
    (hr : m.readers = n.readers) (j : Nat) : readersOf (t.set i m) j = readersOf t j := by
  by_cases hj : j = i
  · subst hj
    simp [readersOf, hf, hr]
  · simp [readersOf, Tree.find_set_ne t m hj]

theorem tryRLockPathF_runlock :
    ∀ (fuel : Nat) (oi : Option Nat) (t t2 : Tree),
      tryRLockPathF fuel t oi = some t2 → runlockPathF fuel t2 oi = .ok t := by
  intro fuel
  induction fuel with
  | zero =>
    intro oi t t2 h
    cases oi with
    | none => cases h; rfl
    | some i => simp [tryRLockPathF] at h
  | succ fuel ih =>
    intro oi t t2 h
    cases oi with
    | none => cases h; rfl
    | some i =>
      simp only [tryRLockPathF] at h
      split at h
      next => cases h
      next n hf =>
        split at h
        next => cases h
        next t1 hrec =>
          simp only [tryRlockNode] at h
          split at h
          next => cases h
          next n1 hf1 =>
            split at h
            next => cases h
            next hneg =>
              split at h
              next => cases h
              next hmax =>
                cases h
                have hfind2 : (t1.set i { n1 with readers := n1.readers + 1 }).find i
                    = some { n1 with readers := n1.readers + 1 } := by simp [hf1]
                have hrn : runlockNode (t1.set i { n1 with readers := n1.readers + 1 }) (some i)
                    = .ok t1 := by
                  simp only [runlockNode, hfind2]
                  rw [if_neg (show ¬ (n1.readers + 1 ≤ 0) by omega)]
                  rw [Tree.set_set]
                  have he : n1.readers + 1 - 1 = n1.readers := by omega
                  rw [he, GoNode.eta_readers, Tree.set_of_find t1 hf1]
                simp only [runlockPathF, hfind2, hrn]
                have hcc : chillOf n1 = chillOf n := by
                  obtain ⟨n2, hf2, hc⟩ :=
                    eqButReaders_find_some (tryRLockPathF_eqButReaders fuel n.parent t t1 hrec) hf
                  rw [hf1] at hf2
                  cases hf2
                  exact hc
                rw [show ({ n1 with readers := n1.readers + 1 } : GoNode).parent = n.parent from
                  chill_parent hcc]
                exact ih _ _ _ hrec

theorem tryWLockPathF_unlock {fuel : Nat} {oi : Option Nat} {t t2 : Tree}
    (h : tryWLockPathF fuel t oi = some t2) : unlockPathF fuel t2 oi true = .ok t := by
  cases oi with
  | none => cases h
  | some i =>
    simp only [tryWLockPathF] at h
    split at h
    next => cases h
    next n hf =>
      split at h
      next => cases h
      next h0 =>
        split at h
        next => cases h
        next t1 hrec =>
          simp only [tryWLockNode] at h
          split at h
          next => cases h
          next n1 hf1 =>
            split at h
            next => cases h
            next h1 =>
              cases h
              have h1e : n1.readers = 0 := by omega
              have hfind2 : (t1.set i { n1 with readers := -1 }).find i
                  = some { n1 with readers := -1 } := by simp [hf1]
              have hwu : unlockNode (t1.set i { n1 with readers := -1 }) (some i) true
                  = .ok t1 := by
                show wunlockNode (t1.set i { n1 with readers := -1 }) (some i) = .ok t1
                simp only [wunlockNode, hfind2]
                rw [if_neg (show ¬ (({ n1 with readers := -1 } : GoNode).readers ≠ -1) by simp)]
                rw [Tree.set_set]
                rw [show ({ n1 with readers := 0 } : GoNode) = n1 by rw [← h1e]]
                rw [Tree.set_of_find t1 hf1]
              simp only [unlockPathF, hfind2, hwu]
              have hcc : chillOf n1 = chillOf n := by
                obtain ⟨n2, hf2, hc⟩ :=
                  eqButReaders_find_some (tryRLockPathF_eqButReaders fuel n.parent t t1 hrec) hf
                rw [hf1] at hf2
                cases hf2
                exact hc
              rw [show ({ n1 with readers := -1 } : GoNode).parent = n.parent from
                chill_parent hcc]
              exact tryRLockPathF_runlock fuel _ t t1 hrec

theorem freeF_readersOf :
    ∀ (fuel : Nat) (t : Tree) (oi : Option Nat) (j : Nat),
      readersOf (freeF fuel t oi) j = readersOf t j := by
  intro fuel
  induction fuel with
  | zero =>
    intro t oi j
    cases oi with
    | none => rfl
    | some i =>
      cases hf : t.find i with
      | none => rw [freeF_absent 0 t i hf]
      | some n =>
        unfold freeF
        rw [hf]
        dsimp only
        generalize (if n.rc = 0 then U64MAX else n.rc - 1) = r
        by_cases hr : r = 0
        · rw [if_pos hr]
          cases hp : n.parent with
          | none =>
            dsimp only
            refine readersOf_set hf ?_ j
            rfl
          | some p =>
            dsimp only
            cases hfp : (t.set i { n with rc := r, parent := some p }).find p with
            | none =>
              dsimp only
              refine readersOf_set hf ?_ j
              rfl
            | some pn =>
              dsimp only
              refine Eq.trans (readersOf_set hfp ?_ j) (readersOf_set hf ?_ j) <;> rfl
        · rw [if_neg hr]
          refine readersOf_set hf ?_ j
          rfl
  | succ fuel ih =>
    intro t oi j
    cases oi with
    | none => rfl
    | some i =>
      cases hf : t.find i with
      | none => rw [freeF_absent (fuel + 1) t i hf]
      | some n =>
        unfold freeF
        rw [hf]
        dsimp only
        generalize (if n.rc = 0 then U64MAX else n.rc - 1) = r
        by_cases hr : r = 0
        · rw [if_pos hr]
          cases hp : n.parent with
          | none =>
            dsimp only
            refine readersOf_set hf ?_ j
            rfl
          | some p =>
            dsimp only
            cases hfp : (t.set i { n with rc := r, parent := some p }).find p with
            | none =>
              dsimp only
              refine readersOf_set hf ?_ j
              rfl
            | some pn =>
              dsimp only
              refine Eq.trans (ih _ _ j)
                (Eq.trans (readersOf_set hfp ?_ j) (readersOf_set hf ?_ j)) <;> rfl
        · rw [if_neg hr]
          refine readersOf_set hf ?_ j
          rfl

theorem tryWLockPathF_some_eq {fuel : Nat} {t : Tree} {i : Nat} {t2 : Tree}
    (h : tryWLockPathF fuel t (some i) = some t2) :
    ∃ n t1 n1, t.find i = some n ∧ n.readers = 0 ∧
      tryRLockPathF fuel t n.parent = some t1 ∧ t1.find i = some n1 ∧
      n1.readers = 0 ∧ chillOf n1 = chillOf n ∧
      t2 = t1.set i { n1 with readers := -1 } := by
  simp only [tryWLockPathF] at h
  split at h
  next => cases h
  next n hf =>
    split at h
    next => cases h
    next h0 =>
      split at h
      next => cases h
      next t1 hrec =>
        simp only [tryWLockNode] at h
        split at h
        next => cases h
        next n1 hf1 =>
          split at h
          next => cases h
          next h1 =>
            cases h
            have hcc : chillOf n1 = chillOf n := by
              obtain ⟨n2, hf2, hc⟩ :=
                eqButReaders_find_some (tryRLockPathF_eqButReaders fuel n.parent t t1 hrec) hf
              rw [hf1] at hf2
              cases hf2
              exact hc
            exact ⟨n, t1, n1, hf, by omega, hrec, hf1, by omega, hcc, rfl⟩

theorem tryRLockPathF_some_eq {fuel : Nat} {t : Tree} {i : Nat} {t2 : Tree}
    (h : tryRLockPathF fuel t (some i) = some t2) :
    ∃ fuel2 n t1 n1, fuel = fuel2 + 1 ∧ t.find i = some n ∧
      tryRLockPathF fuel2 t n.parent = some t1 ∧ t1.find i = some n1 ∧
      0 ≤ n1.readers ∧ n1.readers ≠ I64MAX ∧ chillOf n1 = chillOf n ∧
      t2 = t1.set i { n1 with readers := n1.readers + 1 } := by
  cases fuel with
  | zero => simp [tryRLockPathF] at h
  | succ fuel =>
    simp only [tryRLockPathF] at h
    split at h
    next => cases h
    next n hf =>
      split at h
      next => cases h
      next t1 hrec =>
        simp only [tryRlockNode] at h
        split at h
        next => cases h
        next n1 hf1 =>
          split at h
          next => cases h
          next hneg =>
            split at h
            next => cases h
            next hmax =>
              cases h
              have hcc : chillOf n1 = chillOf n := by
                obtain ⟨n2, hf2, hc⟩ :=
                  eqButReaders_find_some (tryRLockPathF_eqButReaders fuel n.parent t t1 hrec) hf
                rw [hf1] at hf2
                cases hf2
                exact hc
              exact ⟨fuel, n, t1, n1, rfl, hf, hrec, hf1, by omega, hmax, hcc, rfl⟩


theorem shape_parent {a b : GoNode} (h : shapeOf a = shapeOf b) : a.parent = b.parent := by
  have h2 := congrArg GoNode.parent h
  exact h2

theorem shape_name {a b : GoNode} (h : shapeOf a = shapeOf b) : a.name = b.name := by
  have h2 := congrArg GoNode.name h
  exact h2

theorem shape_children {a b : GoNode} (h : shapeOf a = shapeOf b) : a.children = b.children := by
  have h2 := congrArg GoNode.children h
  exact h2

theorem shape_exile {a b : GoNode} (h : shapeOf a = shapeOf b) : a.exile = b.exile := by
  have h2 := congrArg GoNode.exile h
  exact h2

theorem eqShape_find_some {t1 t2 : Tree} (h : EqShape t1 t2) {i : Nat} {n1 : GoNode}
    (hf : t1.find i = some n1) : ∃ n2, t2.find i = some n2 ∧ shapeOf n2 = shapeOf n1 := by
  have h4 := h.2.2.2 i
  rw [hf] at h4
  cases hf2 : t2.find i with
  | none => rw [hf2] at h4; simp at h4
  | some n2 =>
    rw [hf2] at h4
    exact ⟨n2, rfl, (Option.some.inj h4).symm⟩

theorem eqShape_find_none {t1 t2 : Tree} (h : EqShape t1 t2) {i : Nat}
    (hf : t1.find i = none) : t2.find i = none := by
  have h4 := h.2.2.2 i
  rw [hf] at h4
  cases hf2 : t2.find i with
  | none => rfl
  | some n2 => rw [hf2] at h4; simp at h4

theorem pushNode_find (t : Tree) (n : GoNode) (j : Nat) :
    (pushNode t n).find j =
      match t.find j with
      | some m => some m
      | none => if t.nextId = j then some n else none := by
  cases hfj : t.find j with
  | some m =>
    show lookupA (t.nodes ++ [(t.nextId, n)]) j = _
    rw [lookupA_append, show lookupA t.nodes j = some m from hfj]
  | none =>
    show lookupA (t.nodes ++ [(t.nextId, n)]) j = _
    rw [lookupA_append, show lookupA t.nodes j = none from hfj]
    exact rfl

theorem pushNode_find_old {t : Tree} {j : Nat} {m : GoNode} (n : GoNode)
    (h : t.find j = some m) : (pushNode t n).find j = some m := by
  rw [pushNode_find, h]

theorem readersOf_pushNode {t : Tree} {n : GoNode} (hn : n.readers = 0) (k : Nat) :
    readersOf (pushNode t n) k = readersOf t k := by
  unfold readersOf
  rw [pushNode_find]
  cases hlk : t.find k with
  | some m => rfl
  | none =>
    by_cases hk : t.nextId = k <;> simp [hk, hn]

theorem allocCleanFrom_dangling :
    ∀ (segs : List String) (t : Tree) (d : Nat), t.find d = none →
      allocCleanFrom t d segs = (t, d) := by
  intro segs
  induction segs with
  | nil => intro t d h; rfl
  | cons base rest ih =>
    intro t d h
    have hs : allocChild t d base = (t, d) := by
      simp only [allocChild, h]
    show allocCleanFrom (allocChild t d base).1 (allocChild t d base).2 rest = (t, d)
    rw [hs]
    exact ih t d h

theorem allocCleanFrom_mono :
    ∀ (segs : List String) (t : Tree) (d : Nat) {j : Nat} {nj : GoNode} {key : String} {v : Nat},
      t.find j = some nj → childGet nj.children key = some v →
      ∃ nj2, (allocCleanFrom t d segs).1.find j = some nj2 ∧
        childGet nj2.children key = some v := by
  intro segs
  induction segs with
  | nil => intro t d j nj key v hfj hcg; exact ⟨nj, hfj, hcg⟩
  | cons base rest ih =>
    intro t d j nj key v hfj hcg
    show ∃ nj2, (allocCleanFrom (allocChild t d base).1 (allocChild t d base).2 rest).1.find j
        = some nj2 ∧ childGet nj2.children key = some v
    cases hfd : t.find d with
    | none =>
      rw [show allocChild t d base = (t, d) by simp only [allocChild, hfd]]
      exact ih t d hfj hcg
    | some dir =>
      cases hcgd : childGet dir.children base with
      | some b =>
        rw [show allocChild t d base = (t, b) by simp only [allocChild, hfd, hcgd]]
        exact ih t b hfj hcg
      | none =>
        have hstep : allocChild t d base =
            ((pushNode t (freshChild base d)).set d
              { dir with rc := if dir.rc = U64MAX then 0 else dir.rc + 1,
                         children := childSet dir.children base t.nextId }, t.nextId) := by
          simp only [allocChild, hfd, hcgd]
        rw [hstep]
        have hfj1 : (pushNode t (freshChild base d)).find j = some nj :=
          pushNode_find_old _ hfj
        by_cases hjd : j = d
        · subst hjd
          have hnj : nj = dir := by
            rw [hfj] at hfd
            exact Option.some.inj hfd
          subst hnj
          have hkb : key ≠ base := by
            intro hk
            rw [hk] at hcg
            rw [hcg] at hcgd
            cases hcgd
          have hfind2 : ((pushNode t (freshChild base j)).set j
              { nj with rc := if nj.rc = U64MAX then 0 else nj.rc + 1,
                        children := childSet nj.children base t.nextId }).find j
              = some { nj with rc := if nj.rc = U64MAX then 0 else nj.rc + 1,
                               children := childSet nj.children base t.nextId } := by
            simp [hfj1]
          refine ih _ _ hfind2 ?_
          exact (childGet_childSet_ne nj.children t.nextId hkb).trans hcg
        · have hfind2 : ((pushNode t (freshChild base d)).set d
              { dir with rc := if dir.rc = U64MAX then 0 else dir.rc + 1,
                         children := childSet dir.children base t.nextId }).find j
              = some nj := by
            rw [Tree.find_set_ne _ _ hjd]
            exact hfj1
          exact ih _ _ hfind2 hcg

theorem allocCleanFrom_readersOf :
    ∀ (segs : List String) (t : Tree) (d : Nat) (j : Nat),
      readersOf (allocCleanFrom t d segs).1 j = readersOf t j := by
  intro segs
  induction segs with
  | nil => intro t d j; rfl
  | cons base rest ih =>
    intro t d j
    show readersOf (allocCleanFrom (allocChild t d base).1 (allocChild t d base).2 rest).1 j
        = readersOf t j
    cases hfd : t.find d with
    | none =>
      rw [show allocChild t d base = (t, d) by simp only [allocChild, hfd]]
      exact ih t d j
    | some dir =>
      cases hcgd : childGet dir.children base with
      | some b =>
        rw [show allocChild t d base = (t, b) by simp only [allocChild, hfd, hcgd]]
        exact ih t b j
      | none =>
        have hstep : allocChild t d base =
            ((pushNode t (freshChild base d)).set d
              { dir with rc := if dir.rc = U64MAX then 0 else dir.rc + 1,
                         children := childSet dir.children base t.nextId }, t.nextId) := by
          simp only [allocChild, hfd, hcgd]
        rw [hstep]
        have hfd1 : (pushNode t (freshChild base d)).find d = some dir :=
          pushNode_find_old _ hfd
        dsimp only
        rw [ih _ _ j]
        have h2 : readersOf ((pushNode t (freshChild base d)).set d
            { dir with rc := if dir.rc = U64MAX then 0 else dir.rc + 1,
                       children := childSet dir.children base t.nextId }) j
            = readersOf (pushNode t (freshChild base d)) j := by
          refine readersOf_set hfd1 ?_ j
          rfl
        rw [h2, readersOf_pushNode rfl j]

theorem allocCleanFrom_det :
    ∀ (segs : List String) (t : Tree) (d : Nat) (t2 : Tree),
      EqShape (allocCleanFrom t d segs).1 t2 →
      allocCleanFrom t2 d segs = (t2, (allocCleanFrom t d segs).2) := by
  intro segs
  induction segs with
  | nil => intro t d t2 h; rfl
  | cons base rest ih =>
    intro t d t2 h
    rw [show allocCleanFrom t d (base :: rest)
        = allocCleanFrom (allocChild t d base).1 (allocChild t d base).2 rest from rfl] at h
    rw [show allocCleanFrom t d (base :: rest)
        = allocCleanFrom (allocChild t d base).1 (allocChild t d base).2 rest from rfl]
    show allocCleanFrom (allocChild t2 d base).1 (allocChild t2 d base).2 rest = _
    cases hfd : t.find d with
    | none =>
      rw [show allocChild t d base = (t, d) by simp only [allocChild, hfd]] at h ⊢
      rw [allocCleanFrom_dangling rest t d hfd] at h ⊢
      have hfd2 : t2.find d = none := eqShape_find_none h hfd
      rw [show allocChild t2 d base = (t2, d) by simp only [allocChild, hfd2]]
      exact allocCleanFrom_dangling rest t2 d hfd2
    | some dir =>
      cases hcgd : childGet dir.children base with
      | some b =>
        rw [show allocChild t d base = (t, b) by simp only [allocChild, hfd, hcgd]] at h ⊢
        obtain ⟨nj2, hfa, hent⟩ := allocCleanFrom_mono rest t b hfd hcgd
        obtain ⟨m, hfm, hsm⟩ := eqShape_find_some h hfa
        have hstep2 : allocChild t2 d base = (t2, b) := by
          simp only [allocChild, hfm, shape_children hsm, hent]
        rw [hstep2]
        exact ih t b t2 h
      | none =>
        have hstep : allocChild t d base =
            ((pushNode t (freshChild base d)).set d
              { dir with rc := if dir.rc = U64MAX then 0 else dir.rc + 1,
                         children := childSet dir.children base t.nextId }, t.nextId) := by
          simp only [allocChild, hfd, hcgd]
        rw [hstep] at h ⊢
        have hfd1 : ((pushNode t (freshChild base d)).set d
            { dir with rc := if dir.rc = U64MAX then 0 else dir.rc + 1,
                       children := childSet dir.children base t.nextId }).find d
            = some { dir with rc := if dir.rc = U64MAX then 0 else dir.rc + 1,
                              children := childSet dir.children base t.nextId } := by
          simp [pushNode_find_old _ hfd]
        obtain ⟨nj2, hfa, hent⟩ := allocCleanFrom_mono rest _ t.nextId hfd1
          (childGet_childSet_self dir.children base t.nextId)
        obtain ⟨m, hfm, hsm⟩ := eqShape_find_some h hfa
        have hstep2 : allocChild t2 d base = (t2, t.nextId) := by
          simp only [allocChild, hfm, shape_children hsm, hent]
        rw [hstep2]
        exact ih _ _ t2 h

theorem splitSlashChars_append (xs : List Char) :
    ∀ (cur ys : List Char),
      splitSlashChars cur (xs ++ ('/' :: ys)) = splitSlashChars cur xs ++ splitSlashChars [] ys := by
  induction xs with
  | nil => intro cur ys; simp [splitSlashChars]
  | cons c xs ih =>
    intro cur ys
    by_cases hc : c = '/'
    · subst hc
      show String.mk cur.reverse :: splitSlashChars [] (xs ++ ('/' :: ys))
          = (String.mk cur.reverse :: splitSlashChars [] xs) ++ splitSlashChars [] ys
      rw [ih]
      rfl
    · simp only [List.cons_append, splitSlashChars, if_neg hc]
      exact ih (c :: cur) ys

theorem cleanRev_dots : ∀ (l : List String), (∀ s ∈ l, s = "..") → cleanRev [] l = [] := by
  intro l
  induction l with
  | nil => intro _; rfl
  | cons s rest ih =>
    intro h
    have hs : s = ".." := h s (List.mem_cons_self s rest)
    subst hs
    show cleanRev [] rest = []
    exact ih fun x hx => h x (List.mem_cons_of_mem _ hx)

theorem dotsChain_segs : ∀ n : Nat,
    splitSlashChars [] (dotsChain n).data = List.replicate (n + 1) ".." := by
  intro n
  induction n with
  | zero => rfl
  | succ n ih =>
    show splitSlashChars [] (dotsChain n ++ "/..").data = _
    rw [show (dotsChain n ++ "/..").data = (dotsChain n).data ++ ('/' :: ['.', '.']) from
      String.data_append (dotsChain n) "/.."]
    rw [splitSlashChars_append, ih]
    rw [show splitSlashChars [] ['.', '.'] = [".."] from by decide]
    exact (List.replicate_succ' _ _).symm

theorem cleanSegs_dotsChain (n : Nat) : cleanSegs (dotsChain n) = [] := by
  unfold cleanSegs
  rw [dotsChain_segs n]
  rw [cleanRev_dots _ (fun s hs => (List.eq_of_mem_replicate hs))]
  rfl

/-- C7: the inputs `""`, `"."`, `"/"`, `".."` and every chain of `..`
segments all clean to the root path, and resolving them in any tree
state returns the root node and leaves the tree untouched: path
normalization can never escape above the root. -/
theorem C7_root_cage :
    (∀ t : Tree, allocClean t (cleanSegs "") = (t, t.root)) ∧
    (∀ t : Tree, allocClean t (cleanSegs ".") = (t, t.root)) ∧
    (∀ t : Tree, allocClean t (cleanSegs "/") = (t, t.root)) ∧
    (∀ t : Tree, allocClean t (cleanSegs "..") = (t, t.root)) ∧
    (∀ t : Tree, allocClean t (cleanSegs "../..") = (t, t.root)) ∧
    (∀ (n : Nat) (t : Tree), allocClean t (cleanSegs (dotsChain n)) = (t, t.root)) := by
  refine ⟨fun t => ?_, fun t => ?_, fun t => ?_, fun t => ?_, fun t => ?_, fun n t => ?_⟩
  · rw [show cleanSegs "" = [] from by decide]
    rfl
  · rw [show cleanSegs "." = [] from by decide]
    rfl
  · rw [show cleanSegs "/" = [] from by decide]
    rfl
  · rw [show cleanSegs ".." = [] from by decide]
    rfl
  · rw [show cleanSegs "../.." = [] from by decide]
    rfl
  · rw [cleanSegs_dotsChain n]
    rfl

theorem readersOf_set_self {t : Tree} {i : Nat} {n : GoNode} (m : GoNode)
    (hf : t.find i = some n) : readersOf (t.set i m) i = m.readers := by
  simp [readersOf, hf]

theorem readersOf_eq {t : Tree} {i : Nat} {n : GoNode} (hf : t.find i = some n) :
    readersOf t i = n.readers := by
  simp [readersOf, hf]

theorem applyNodeOp_inv {t : Tree} {i : Nat} {op : NodeOp} {t2 : Tree}
    (h : applyNodeOp t i op = some t2)
    (hinv : readersOf t i = -1 ∨ 0 ≤ readersOf t i) :
    readersOf t2 i = -1 ∨ 0 ≤ readersOf t2 i := by
  cases op with
  | tryR =>
    simp only [applyNodeOp, tryRlockNode] at h
    split at h
    next => cases h
    next n hf =>
      split at h
      next => cases h
      next hneg =>
        split at h
        next => cases h
        next hmax =>
          cases h
          right
          rw [readersOf_set_self _ hf]
          show 0 ≤ n.readers + 1
          omega
  | tryW =>
    simp only [applyNodeOp, tryWLockNode] at h
    split at h
    next => cases h
    next n hf =>
      split at h
      next => cases h
      next h0 =>
        cases h
        left
        rw [readersOf_set_self _ hf]
  | unlockR =>
    simp only [applyNodeOp] at h
    cases hrn : runlockNode t (some i) with
    | error e => rw [hrn] at h; cases h
    | ok t3 =>
      rw [hrn] at h
      cases h
      simp only [runlockNode] at hrn
      split at hrn
      next => cases hrn; exact hinv
      next n hf =>
        split at hrn
        next => cases hrn
        next hpos =>
          cases hrn
          right
          rw [readersOf_set_self _ hf]
          show 0 ≤ n.readers - 1
          omega
  | unlockW =>
    simp only [applyNodeOp] at h
    cases hrn : wunlockNode t (some i) with
    | error e => rw [hrn] at h; cases h
    | ok t3 =>
      rw [hrn] at h
      cases h
      simp only [wunlockNode] at hrn
      split at hrn
      next => cases hrn; exact hinv
      next n hf =>
        split at hrn
        next => cases hrn
        next hm1 =>
          cases hrn
          right
          rw [readersOf_set_self _ hf]
  | upgrade =>
    simp only [applyNodeOp] at h
    cases hup : tryUpgrade t ⟨some i, false, t.lockerId, false⟩ with
    | error e => rw [hup] at h; cases h
    | ok r =>
      rw [hup] at h
      simp only [Except.toOption, Option.map_some'] at h
      cases h
      simp only [tryUpgrade] at hup
      rw [if_neg (by simp)] at hup
      split at hup
      next =>
        cases hup
        exact hinv
      next n hf =>
        split at hup
        next =>
          cases hup
          exact hinv
        next h1 =>
          cases hup
          left
          exact readersOf_set_self _ hf
  | downgrade =>
    simp only [applyNodeOp] at h
    cases hdn : downgrade t ⟨some i, true, t.lockerId, false⟩ with
    | error e => rw [hdn] at h; cases h
    | ok r =>
      rw [hdn] at h
      simp only [Except.toOption, Option.map_some'] at h
      cases h
      simp only [downgrade] at hdn
      rw [if_neg (by simp)] at hdn
      split at hdn
      next =>
        cases hdn
        exact hinv
      next n hf =>
        split at hdn
        next => cases hdn
        next h1 =>
          cases hdn
          right
          rw [readersOf_set_self _ hf]
          show (0 : Int) ≤ 1
          omega

theorem runNodeOps_inv :
    ∀ (ops : List NodeOp) (t : Tree) (i : Nat),
      (readersOf t i = -1 ∨ 0 ≤ readersOf t i) →
      (readersOf (runNodeOps t i ops) i = -1 ∨ 0 ≤ readersOf (runNodeOps t i ops) i) := by
  intro ops
  induction ops with
  | nil => intro t i h; exact h
  | cons op rest ih =>
    intro t i h
    have hrw : runNodeOps t i (op :: rest)
        = runNodeOps ((applyNodeOp t i op).getD t) i rest := rfl
    rw [hrw]
    cases happ : applyNodeOp t i op with
    | none => exact ih t i h
    | some t2 => exact ih t2 i (applyNodeOp_inv happ h)

theorem I64MAX_lit : I64MAX = 9223372036854775807 := by decide

theorem runNodeOps_tryR :
    ∀ (n : Nat) (t : Tree) (i : Nat) (nd : GoNode) (k : Int),
      t.find i = some nd → nd.readers = k → 0 ≤ k → k + n ≤ I64MAX →
      readersOf (runNodeOps t i (List.replicate n NodeOp.tryR)) i = k + n := by
  intro n
  induction n with
  | zero =>
    intro t i nd k hf hk h0 hb
    show readersOf t i = k + (0 : Nat)
    rw [readersOf_eq hf, hk]
    omega
  | succ n ih =>
    intro t i nd k hf hk h0 hb
    rw [List.replicate_succ]
    show readersOf (runNodeOps ((applyNodeOp t i .tryR).getD t) i
        (List.replicate n NodeOp.tryR)) i = k + ((n : Nat) + 1 : Nat)
    have hblit : k + ((n : Nat) + 1 : Nat) ≤ 9223372036854775807 := by
      rw [← I64MAX_lit]
      exact_mod_cast hb
    have happ : applyNodeOp t i .tryR = some (t.set i { nd with readers := nd.readers + 1 }) := by
      simp only [applyNodeOp, tryRlockNode, hf]
      rw [if_neg (show ¬ nd.readers < 0 by omega),
        if_neg (show ¬ nd.readers = I64MAX by rw [I64MAX_lit]; push_cast at hblit; omega)]
    rw [happ]
    show readersOf (runNodeOps (t.set i { nd with readers := nd.readers + 1 }) i
        (List.replicate n NodeOp.tryR)) i = _
    have hf2 : (t.set i { nd with readers := nd.readers + 1 }).find i
        = some { nd with readers := nd.readers + 1 } := by simp [hf]
    have := ih _ i { nd with readers := nd.readers + 1 } (k + 1) hf2
      (show nd.readers + 1 = k + 1 by omega) (by omega)
      (by rw [I64MAX_lit]; push_cast at hblit ⊢; omega)
    rw [this]
    push_cast
    ring

/-- C3: over any sequence of node-local lock operations the reader
counter of a node is always either exactly `-1` (one writer) or a
non-negative reader count; `n` successful try-read-locks of a free node
leave the counter at exactly `n`; and a try-write-lock fails while any
reader remains. -/
theorem C3_reader_counter :
    (∀ (ops : List NodeOp) (t : Tree) (i : Nat),
        readersOf t i = -1 ∨ 0 ≤ readersOf t i →
        readersOf (runNodeOps t i ops) i = -1 ∨ 0 ≤ readersOf (runNodeOps t i ops) i) ∧
    (∀ (n : Nat) (t : Tree) (i : Nat) (nd : GoNode),
        t.find i = some nd → nd.readers = 0 → (n : Int) ≤ I64MAX →
        readersOf (runNodeOps t i (List.replicate n NodeOp.tryR)) i = n) ∧
    (∀ (t : Tree) (i : Nat), 1 ≤ readersOf t i → tryWLockNode t (some i) = none) := by
  refine ⟨runNodeOps_inv, fun n t i nd hf h0 hb => ?_, fun t i h => ?_⟩
  · have := runNodeOps_tryR n t i nd 0 hf h0 le_rfl (by omega)
    rw [this]
    omega
  · cases hf : t.find i with
    | none => simp [tryWLockNode, hf]
    | some n =>
      rw [readersOf_eq hf] at h
      simp only [tryWLockNode, hf]
      rw [if_pos (show n.readers ≠ 0 by omega)]

/-- Witness for C3 at concrete inputs: on a fresh tree the invariant is
kept along a sample operation sequence, two try-read-locks leave the
root's counter at 2, and a try-write-lock on a node with one reader
fails. -/
theorem C3_reader_counter_witness :
    (readersOf (runNodeOps newTree 0 [NodeOp.tryR, NodeOp.tryW, NodeOp.unlockR]) 0 = -1 ∨
      0 ≤ readersOf (runNodeOps newTree 0 [NodeOp.tryR, NodeOp.tryW, NodeOp.unlockR]) 0) ∧
    readersOf (runNodeOps newTree 0 (List.replicate 2 NodeOp.tryR)) 0 = (2 : Nat) ∧
    tryWLockNode (Tree.mk [(0, GoNode.mk 0 "" none [] false 1)] 0 1 0) (some 0) = none := by
  refine ⟨?_, ?_, ?_⟩
  · exact C3_reader_counter.1 [NodeOp.tryR, NodeOp.tryW, NodeOp.unlockR] newTree 0
      (Or.inr (by decide))
  · exact C3_reader_counter.2.1 2 newTree 0
      (GoNode.mk 0 "" none [] false 0) (by decide) (by decide) (by decide)
  · exact C3_reader_counter.2.2 (Tree.mk [(0, GoNode.mk 0 "" none [] false 1)] 0 1 0) 0
      (by decide)

/-- C8: `Unlock` on node locks and path locks is one-shot: once a lock
is consumed (`done`), further `Unlock` calls return the state and lock
unchanged and never panic, and every successful `Unlock` marks the
lock consumed, so the lock state is never released twice. -/
theorem C8_unlock_once :
    (∀ (fuel : Nat) (t : Tree) (nl : NodeLockObj), nl.done = true →
        nodeLockUnlock fuel t nl = .ok (t, nl)) ∧
    (∀ (fuel : Nat) (t t2 : Tree) (nl nl2 : NodeLockObj),
        nodeLockUnlock fuel t nl = .ok (t2, nl2) →
        nl2.done = true ∧ nodeLockUnlock fuel t2 nl2 = .ok (t2, nl2)) ∧
    (∀ (fuel : Nat) (t : Tree) (pl : PathLockObj), pl.done = true →
        pathLockUnlock fuel t pl = .ok (t, pl)) ∧
    (∀ (fuel : Nat) (t t2 : Tree) (pl pl2 : PathLockObj),
        pathLockUnlock fuel t pl = .ok (t2, pl2) →
        pl2.done = true ∧ pathLockUnlock fuel t2 pl2 = .ok (t2, pl2)) := by
  have h1 : ∀ (fuel : Nat) (t : Tree) (nl : NodeLockObj), nl.done = true →
      nodeLockUnlock fuel t nl = .ok (t, nl) := by
    intro fuel t nl h
    simp [nodeLockUnlock, h]
  have h3 : ∀ (fuel : Nat) (t : Tree) (pl : PathLockObj), pl.done = true →
      pathLockUnlock fuel t pl = .ok (t, pl) := by
    intro fuel t pl h
    simp [pathLockUnlock, h]
  refine ⟨h1, fun fuel t t2 nl nl2 h => ?_, h3, fun fuel t t2 pl pl2 h => ?_⟩
  · by_cases hd : nl.done
    · rw [h1 fuel t nl hd] at h
      cases h
      exact ⟨hd, h1 fuel t nl hd⟩
    · simp only [nodeLockUnlock, if_neg hd] at h
      cases hun : unlockNode t nl.node nl.write with
      | error e => rw [hun] at h; cases h
      | ok t1 =>
        rw [hun] at h
        cases h
        exact ⟨rfl, h1 fuel _ _ rfl⟩
  · by_cases hd : pl.done
    · rw [h3 fuel t pl hd] at h
      cases h
      exact ⟨hd, h3 fuel t pl hd⟩
    · simp only [pathLockUnlock, if_neg hd] at h
      cases hun : unlockPathF fuel t pl.node pl.write with
      | error e => rw [hun] at h; cases h
      | ok t1 =>
        rw [hun] at h
        cases h
        exact ⟨rfl, h3 fuel _ _ rfl⟩

/-- Witness for C8: on a concrete one-node tree with one reader, the
first unlock of a read node lock (and of a read path lock) succeeds,
and the second call is the identity. -/
theorem C8_unlock_once_witness :
    ∃ (r : Tree × NodeLockObj) (q : Tree × PathLockObj),
      nodeLockUnlock 1 (Tree.mk [(0, GoNode.mk 1 "" none [] false 1)] 0 1 0)
        ⟨some 0, false, 0, false⟩ = .ok r ∧
      nodeLockUnlock 1 r.1 r.2 = .ok r ∧
      pathLockUnlock 1 (Tree.mk [(0, GoNode.mk 1 "" none [] false 1)] 0 1 0)
        ⟨some 0, false, 0, false⟩ = .ok q ∧
      pathLockUnlock 1 q.1 q.2 = .ok q := by
  have hn : nodeLockUnlock 1 (Tree.mk [(0, GoNode.mk 1 "" none [] false 1)] 0 1 0)
      ⟨some 0, false, 0, false⟩
      = .ok ((Tree.mk [(0, GoNode.mk 0 "" none [] false 0)] 0 1 0), ⟨some 0, false, 0, true⟩) := by
    rfl
  have hp : pathLockUnlock 1 (Tree.mk [(0, GoNode.mk 1 "" none [] false 1)] 0 1 0)
      ⟨some 0, false, 0, false⟩
      = .ok ((Tree.mk [(0, GoNode.mk 0 "" none [] false 0)] 0 1 0), ⟨some 0, false, 0, true⟩) := by
    rfl
  exact ⟨_, _, hn, (C8_unlock_once.2.1 1 _ _ _ _ hn).2, hp,
    (C8_unlock_once.2.2.2 1 _ _ _ _ hp).2⟩

/-- C9 counterexample: on a node with two readers, `TryUpgrade` on a
read node lock does not abort: it returns the recoverable failure
`false`, leaving the tree and the lock unchanged. -/
theorem C9_upgrade_counterexample :
    tryUpgrade (Tree.mk [(0, GoNode.mk 1 "" none [] false 2)] 0 1 0) ⟨some 0, false, 0, false⟩
      = .ok ((Tree.mk [(0, GoNode.mk 1 "" none [] false 2)] 0 1 0),
             ⟨some 0, false, 0, false⟩, false) := by
  rfl

/-- C9 amended: upgrading a read node lock whose node has two or more
readers is a recoverable failure — `TryUpgrade` returns `false` and
leaves the node state and the lock unchanged; only calling `TryUpgrade`
on a write lock is a fatal precondition violation (panic). -/
theorem C9_upgrade_amended :
    (∀ (t : Tree) (nl : NodeLockObj) (i : Nat) (n : GoNode),
        nl.write = false → nl.node = some i → t.find i = some n → 2 ≤ n.readers →
        tryUpgrade t nl = .ok (t, nl, false)) ∧
    (∀ (t : Tree) (nl : NodeLockObj), nl.write = true →
        tryUpgrade t nl = .error "must only upgrade a read lock") := by
  constructor
  · intro t nl i n hw hn hf hr
    simp only [tryUpgrade, hw, hn, hf]
    rw [if_neg (by simp), if_pos (show n.readers ≠ 1 by omega)]
  · intro t nl hw
    simp [tryUpgrade, hw]

/-- Witness for C9's amended claim at a concrete two-reader state and a
concrete write lock. -/
theorem C9_upgrade_amended_witness :
    tryUpgrade (Tree.mk [(0, GoNode.mk 1 "" none [] false 2)] 0 1 0) ⟨some 0, false, 9, false⟩
      = .ok ((Tree.mk [(0, GoNode.mk 1 "" none [] false 2)] 0 1 0),
             ⟨some 0, false, 9, false⟩, false) ∧
    tryUpgrade newTree ⟨some 0, true, 0, false⟩ = .error "must only upgrade a read lock" :=
  ⟨C9_upgrade_amended.1 (Tree.mk [(0, GoNode.mk 1 "" none [] false 2)] 0 1 0)
      ⟨some 0, false, 9, false⟩ 0 (GoNode.mk 1 "" none [] false 2) rfl rfl (by decide) (by decide),
   C9_upgrade_amended.2 newTree ⟨some 0, true, 0, false⟩ rfl⟩

/-- C10: `WLockExile` never hits its `"write lock exile failed"` panic:
whenever the next heap id is fresh (as it always is for a live locker),
the freshly allocated exile node — parentless, unlocked, unreachable —
is always write-path-lockable, and a write path lock on it is returned. -/
theorem C10_wLockExile_total :
    ∀ (fuel : Nat) (t : Tree), t.find t.nextId = none →
      wLockExile fuel t = .ok
        ((pushNode t (GoNode.mk 1 "" none [] true 0)).set t.nextId
          (GoNode.mk 1 "" none [] true (-1)),
         ⟨some t.nextId, true, t.lockerId, false⟩) := by
  intro fuel t hfresh
  have hfind : (pushNode t (GoNode.mk 1 "" none [] true 0)).find t.nextId
      = some (GoNode.mk 1 "" none [] true 0) := by
    rw [pushNode_find, hfresh]
    simp
  have htw : tryWLockPathF fuel (pushNode t (GoNode.mk 1 "" none [] true 0)) (some t.nextId)
      = some ((pushNode t (GoNode.mk 1 "" none [] true 0)).set t.nextId
          (GoNode.mk 1 "" none [] true (-1))) := by
    simp only [tryWLockPathF, hfind]
    rw [if_neg (by simp)]
    show (match tryRLockPathF fuel (pushNode t (GoNode.mk 1 "" none [] true 0)) none with
      | none => none
      | some t1 => tryWLockNode t1 (some t.nextId)) = _
    rw [show tryRLockPathF fuel (pushNode t (GoNode.mk 1 "" none [] true 0)) none
        = some (pushNode t (GoNode.mk 1 "" none [] true 0)) from by cases fuel <;> rfl]
    dsimp only
    simp only [tryWLockNode, hfind]
    rw [if_neg (by simp)]
  have hfind2 : ((pushNode t (GoNode.mk 1 "" none [] true 0)).set t.nextId
      (GoNode.mk 1 "" none [] true (-1))).find t.nextId
      = some (GoNode.mk 1 "" none [] true (-1)) := by
    simp [hfind]
  have hcr : createPathLock ((pushNode t (GoNode.mk 1 "" none [] true 0)).set t.nextId
      (GoNode.mk 1 "" none [] true (-1))) (some t.nextId) true
      = .ok (((pushNode t (GoNode.mk 1 "" none [] true 0)).set t.nextId
          (GoNode.mk 1 "" none [] true (-1))).set t.nextId
          (GoNode.mk 2 "" none [] true (-1)),
        ⟨some t.nextId, true, t.lockerId, false⟩) := by
    simp only [createPathLock, retain, hfind2]
    rw [if_neg (by decide)]
    rfl
  have hfree : freeF fuel (((pushNode t (GoNode.mk 1 "" none [] true 0)).set t.nextId
      (GoNode.mk 1 "" none [] true (-1))).set t.nextId
      (GoNode.mk 2 "" none [] true (-1))) (some t.nextId)
      = (pushNode t (GoNode.mk 1 "" none [] true 0)).set t.nextId
          (GoNode.mk 1 "" none [] true (-1)) := by
    exact retain_free_cancel fuel _ hfind2 (by decide)
  show (match tryWLockPathF fuel (pushNode t (GoNode.mk 1 "" none [] true 0))
      (some t.nextId) with
    | none => Except.error "write lock exile failed"
    | some t1 =>
      match createPathLock t1 (some t.nextId) true with
      | .error e => .error e
      | .ok (t2, pl) => .ok (freeF fuel t2 (some t.nextId), pl)) = _
  rw [htw]
  dsimp only
  rw [hcr]
  dsimp only
  rw [hfree]

/-- Witness for C10 on a fresh locker. -/
theorem C10_wLockExile_total_witness :
    wLockExile 1 newTree = .ok
      ((pushNode newTree (GoNode.mk 1 "" none [] true 0)).set 1
        (GoNode.mk 1 "" none [] true (-1)),
       ⟨some 1, true, 0, false⟩) :=
  C10_wLockExile_total 1 newTree (by decide)

theorem freeF_parentless (fuel : Nat) (t : Tree) {i : Nat} {n : GoNode}
    (hf : t.find i = some n) (hpar : n.parent = none) (h1 : 1 ≤ n.rc) :
    freeF fuel t (some i) = t.set i { n with rc := n.rc - 1 } := by
  unfold freeF
  rw [hf]
  dsimp only
  rw [if_neg (show ¬ (n.rc = 0) by omega)]
  by_cases h0 : n.rc - 1 = 0
  · rw [if_pos h0, hpar]
  · rw [if_neg h0]

/-- C6 counterexample: resolving the root path (obtaining a retained
`Node` handle on the root, as `AllocSlash` of `"/"` does) does change
the root node's reference count: on a fresh locker it goes from 0 to 1
while the handle is held. -/
theorem C6_root_rc_counterexample :
    allocCleanPathM 1 newTree [] =
      .ok (Tree.mk [(0, GoNode.mk 1 "" none [] false 0)] 0 1 0, 0) ∧
    rcOf (Tree.mk [(0, GoNode.mk 1 "" none [] false 0)] 0 1 0) 0 ≠ rcOf newTree 0 := by
  exact ⟨rfl, by decide⟩

/-- C6 amended: resolving the root path always returns the same
singleton root node without touching the tree (`allocClean` of the root
path is the identity); obtaining a retained root handle increments the
root's reference count by exactly one, like any node, and freeing the
handle restores the state exactly; the root is never unlinked or freed:
`free` on the parentless root only decrements its counter and removes
nothing from the tree. -/
theorem C6_root_permanent :
    (∀ t : Tree, allocClean t [] = (t, t.root)) ∧
    (∀ (fuel : Nat) (t : Tree) (r0 : GoNode),
        t.find t.root = some r0 → r0.parent = none →
        r0.rc ≠ U64MAX → r0.rc + 1 ≠ U64MAX →
        allocCleanPathM fuel t [] = .ok (t.set t.root { r0 with rc := r0.rc + 1 }, t.root) ∧
        freeF fuel (t.set t.root { r0 with rc := r0.rc + 1 }) (some t.root) = t) := by
  refine ⟨fun t => rfl, fun fuel t r0 hf hpar hrc hrc1 => ?_⟩
  have hfind1 : (t.set t.root { r0 with rc := r0.rc + 1 }).find t.root
      = some { r0 with rc := r0.rc + 1 } := by simp [hf]
  have he : r0.rc + 1 - 1 = r0.rc := by omega
  constructor
  · have halloc : allocRetainClean t []
        = .ok (t.set t.root { r0 with rc := r0.rc + 1 }, t.root) := by
      simp only [allocRetainClean, allocClean, allocCleanFrom, hf]
      rw [if_neg hrc]
    have hretain : retain (t.set t.root { r0 with rc := r0.rc + 1 }) (some t.root)
        = .ok ((t.set t.root { r0 with rc := r0.rc + 1 }).set t.root
            { r0 with rc := r0.rc + 1 + 1 }) := by
      simp only [retain, hfind1]
      rw [if_neg (show ¬ (r0.rc + 1 = U64MAX) from hrc1)]
    have hfree : freeF fuel ((t.set t.root { r0 with rc := r0.rc + 1 }).set t.root
        { r0 with rc := r0.rc + 1 + 1 }) (some t.root)
        = t.set t.root { r0 with rc := r0.rc + 1 } := by
      exact retain_free_cancel fuel _ hfind1 (show 1 ≤ r0.rc + 1 by omega)
    show (match allocRetainClean t [] with
      | Except.error e => Except.error e
      | Except.ok (t1, i) =>
        match retain t1 (some i) with
        | Except.error e => Except.error e
        | Except.ok t2 => Except.ok (freeF fuel t2 (some i), i)) = _
    rw [halloc]
    dsimp only
    rw [hretain]
    dsimp only
    rw [hfree]
  · rw [freeF_parentless fuel _ hfind1 (show r0.parent = none from hpar)
      (show 1 ≤ r0.rc + 1 by omega)]
    rw [Tree.set_set]
    dsimp only
    rw [he, GoNode.eta_rc, Tree.set_of_find t hf]

/-- Witness for C6's amended claim on a fresh locker. -/
theorem C6_root_permanent_witness :
    allocClean newTree [] = (newTree, 0) ∧
    allocCleanPathM 1 newTree []
      = .ok (newTree.set 0 (GoNode.mk 1 "" none [] false 0), 0) ∧
    freeF 1 (newTree.set 0 (GoNode.mk 1 "" none [] false 0)) (some 0) = newTree := by
  have h := C6_root_permanent.2 1 newTree (GoNode.mk 0 "" none [] false 0)
    (by decide) rfl (by decide) (by decide)
  exact ⟨C6_root_permanent.1 newTree, h.1, h.2⟩


theorem rcOf_set {t : Tree} {i : Nat} {n m : GoNode} (hf : t.find i = some n)
    (hr : m.rc = n.rc) (j : Nat) : rcOf (t.set i m) j = rcOf t j := by
  by_cases hj : j = i
  · subst hj
    simp [rcOf, hf, hr]
  · simp [rcOf, Tree.find_set_ne t m hj]

theorem find_modifyNode_ne {t : Tree} {i : Nat} (f : GoNode → GoNode) {j : Nat} (h : j ≠ i) :
    (modifyNode t i f).find j = t.find j := by
  unfold modifyNode
  cases hf : t.find i with
  | none => rfl
  | some n => exact Tree.find_set_ne t (f n) h

theorem find_modifyNode_self {t : Tree} {i : Nat} {n : GoNode} (f : GoNode → GoNode)
    (hf : t.find i = some n) : (modifyNode t i f).find i = some (f n) := by
  unfold modifyNode
  rw [hf]
  simp [hf]

theorem rcOf_modifyNode {t : Tree} {i : Nat} {f : GoNode → GoNode}
    (hrc : ∀ n, (f n).rc = n.rc) (j : Nat) : rcOf (modifyNode t i f) j = rcOf t j := by
  unfold modifyNode
  cases hf : t.find i with
  | none => rfl
  | some n => exact rcOf_set hf (hrc n) j

theorem readersOf_modifyNode {t : Tree} {i : Nat} {f : GoNode → GoNode}
    (hrd : ∀ n, (f n).readers = n.readers) (j : Nat) :
    readersOf (modifyNode t i f) j = readersOf t j := by
  unfold modifyNode
  cases hf : t.find i with
  | none => rfl
  | some n => exact readersOf_set hf (hrd n) j

theorem find_setParentEntry_ne {t : Tree} {op : Option Nat} {name : String} {c : Nat}
    {j : Nat} (h : ∀ pp, op = some pp → j ≠ pp) :
    (setParentEntry t op name c).find j = t.find j := by
  cases op with
  | none => rfl
  | some pp => exact find_modifyNode_ne _ (h pp rfl)

theorem find_setParentEntry_self {t : Tree} {op : Option Nat} {pp : Nat} {np : GoNode}
    (name : String) (c : Nat) (hop : op = some pp) (hf : t.find pp = some np) :
    (setParentEntry t op name c).find pp
      = some { np with children := childSet np.children name c } := by
  subst hop
  exact find_modifyNode_self _ hf

theorem rcOf_setParentEntry {t : Tree} {op : Option Nat} {name : String} {c : Nat} (j : Nat) :
    rcOf (setParentEntry t op name c) j = rcOf t j := by
  cases op with
  | none => rfl
  | some pp =>
    refine rcOf_modifyNode ?_ j
    intro n
    rfl

theorem readersOf_setParentEntry {t : Tree} {op : Option Nat} {name : String} {c : Nat}
    (j : Nat) : readersOf (setParentEntry t op name c) j = readersOf t j := by
  cases op with
  | none => rfl
  | some pp =>
    refine readersOf_modifyNode ?_ j
    intro n
    rfl

theorem parentEntry_ok {t : Tree} {op : Option Nat} {name : String} {i : Nat}
    (h : parentEntryMismatch t op name i = false) :
    ∀ pp, op = some pp → ∃ np, t.find pp = some np ∧ childGet np.children name = some i := by
  intro pp hop
  subst hop
  simp only [parentEntryMismatch, decide_eq_false_iff_not, ne_eq, not_not] at h
  cases hf : t.find pp with
  | none => rw [hf] at h; cases h
  | some np =>
    rw [hf] at h
    exact ⟨np, rfl, h⟩

/-- C1: `Exchange` on two write path locks of the same locker swaps
exactly the `(name, parent, exiled)` triple of the two nodes — each
node keeps its reference count, reader count and children — and
repoints each former parent's child-map entry at the other node, so
resolving the first node's old path now reaches the second node and
vice versa; the reference counts (and reader counts) of every node of
the tree, in particular all unaffected ancestors, are unchanged, and
every node other than the two nodes and their former parents is
entirely untouched. -/
theorem C1_exchange_swap
    {t : Tree} {p1 p2 : PathLockObj} {i1 i2 : Nat} {n1 n2 : GoNode}
    (hw1 : p1.write = true) (hw2 : p2.write = true) (hlk : p1.lockerId = p2.lockerId)
    (hn1 : p1.node = some i1) (hn2 : p2.node = some i2) (hne : i1 ≠ i2)
    (hf1 : t.find i1 = some n1) (hf2 : t.find i2 = some n2)
    (hpm1 : parentEntryMismatch t n1.parent n1.name i1 = false)
    (hpm2 : parentEntryMismatch t n2.parent n2.name i2 = false)
    (hex : ¬ ((n1.exile ∧ ¬ n2.exile ∧ n1.children ≠ []) ∨
              (n2.exile ∧ ¬ n1.exile ∧ n2.children ≠ [])))
    (hp1 : ∀ pp, n1.parent = some pp → pp ≠ i1 ∧ pp ≠ i2)
    (hp2 : ∀ pp, n2.parent = some pp → pp ≠ i1 ∧ pp ≠ i2) :
    ∃ t4, exchange t p1 p2 = .ok t4 ∧
      t4.find i1 = some { n1 with name := n2.name, parent := n2.parent, exile := n2.exile } ∧
      t4.find i2 = some { n2 with name := n1.name, parent := n1.parent, exile := n1.exile } ∧
      (∀ pp, n1.parent = some pp →
        ((t4.find pp).bind fun pn => childGet pn.children n1.name) = some i2) ∧
      (∀ pp, n2.parent = some pp →
        ((t4.find pp).bind fun pn => childGet pn.children n2.name) = some i1) ∧
      (∀ j, rcOf t4 j = rcOf t j) ∧
      (∀ j, readersOf t4 j = readersOf t j) ∧
      (∀ j, j ≠ i1 → j ≠ i2 → n1.parent ≠ some j → n2.parent ≠ some j →
        t4.find j = t.find j) := by
  have hbody : exchange t p1 p2 = .ok
      (modifyNode
        (setParentEntry
          (modifyNode (setParentEntry t n1.parent n1.name i2) i2 fun n =>
            { n with name := n1.name, parent := n1.parent, exile := n1.exile })
          n2.parent n2.name i1)
        i1 fun n => { n with name := n2.name, parent := n2.parent, exile := n2.exile }) := by
    simp only [exchange]
    rw [if_neg (show ¬ (p1.lockerId ≠ p2.lockerId) from not_not_intro hlk)]
    rw [if_neg (show ¬ ¬ (p1.write = true ∧ p2.write = true) from not_not_intro ⟨hw1, hw2⟩)]
    rw [hn1, hn2]
    dsimp only
    rw [hf1, hf2]
    dsimp only
    rw [if_neg (show ¬ (parentEntryMismatch t n1.parent n1.name i1 = true ∨
        parentEntryMismatch t n2.parent n2.name i2 = true) from by simp [hpm1, hpm2])]
    rw [if_neg hex]
  refine ⟨_, hbody, ?_, ?_, ?_, ?_, ?_, ?_, ?_⟩
  case refine_1 =>
    have h1 : (setParentEntry t n1.parent n1.name i2).find i1 = some n1 :=
      (find_setParentEntry_ne fun pp h => Ne.symm (hp1 pp h).1).trans hf1
    have h2 : (modifyNode (setParentEntry t n1.parent n1.name i2) i2 fun n =>
        { n with name := n1.name, parent := n1.parent, exile := n1.exile }).find i1
        = some n1 := (find_modifyNode_ne _ hne).trans h1
    have h3 : (setParentEntry
        (modifyNode (setParentEntry t n1.parent n1.name i2) i2 fun n =>
          { n with name := n1.name, parent := n1.parent, exile := n1.exile })
        n2.parent n2.name i1).find i1 = some n1 :=
      (find_setParentEntry_ne fun pp h => Ne.symm (hp2 pp h).1).trans h2
    exact find_modifyNode_self _ h3
  case refine_2 =>
    have h1 : (setParentEntry t n1.parent n1.name i2).find i2 = some n2 :=
      (find_setParentEntry_ne fun pp h => Ne.symm (hp1 pp h).2).trans hf2
    have h2 : (modifyNode (setParentEntry t n1.parent n1.name i2) i2 fun n =>
        { n with name := n1.name, parent := n1.parent, exile := n1.exile }).find i2
        = some { n2 with name := n1.name, parent := n1.parent, exile := n1.exile } :=
      find_modifyNode_self _ h1
    have h3 : (setParentEntry
        (modifyNode (setParentEntry t n1.parent n1.name i2) i2 fun n =>
          { n with name := n1.name, parent := n1.parent, exile := n1.exile })
        n2.parent n2.name i1).find i2
        = some { n2 with name := n1.name, parent := n1.parent, exile := n1.exile } :=
      (find_setParentEntry_ne fun pp h => Ne.symm (hp2 pp h).2).trans h2
    exact (find_modifyNode_ne _ (Ne.symm hne)).trans h3
  case refine_3 =>
    intro pp1 hpar1
    obtain ⟨np1, hfpp1, hent1⟩ := parentEntry_ok hpm1 pp1 hpar1
    have hppne := hp1 pp1 hpar1
    have h1 : (setParentEntry t n1.parent n1.name i2).find pp1
        = some { np1 with children := childSet np1.children n1.name i2 } :=
      find_setParentEntry_self _ _ hpar1 hfpp1
    have h2 : (modifyNode (setParentEntry t n1.parent n1.name i2) i2 fun n =>
        { n with name := n1.name, parent := n1.parent, exile := n1.exile }).find pp1
        = some { np1 with children := childSet np1.children n1.name i2 } :=
      (find_modifyNode_ne _ hppne.2).trans h1
    by_cases halias : n2.parent = some pp1
    · obtain ⟨np2, hfpp2, hent2⟩ := parentEntry_ok hpm2 pp1 halias
      have hnp12 : np2 = np1 := by
        rw [hfpp1] at hfpp2
        exact (Option.some.inj hfpp2).symm
      rw [hnp12] at hent2
      have hname : n2.name ≠ n1.name := by
        intro heq
        rw [heq] at hent2
        rw [hent1] at hent2
        exact hne (Option.some.inj hent2)
      have h3 : (setParentEntry
          (modifyNode (setParentEntry t n1.parent n1.name i2) i2 fun n =>
            { n with name := n1.name, parent := n1.parent, exile := n1.exile })
          n2.parent n2.name i1).find pp1
          = some { np1 with
              children := childSet (childSet np1.children n1.name i2) n2.name i1 } :=
        find_setParentEntry_self _ _ halias h2
      have h4 := (find_modifyNode_ne (fun n =>
        { n with name := n2.name, parent := n2.parent, exile := n2.exile })
          hppne.1).trans h3
      rw [h4]
      show childGet (childSet (childSet np1.children n1.name i2) n2.name i1) n1.name = some i2
      rw [childGet_childSet_ne _ _ (Ne.symm hname)]
      exact childGet_childSet_self _ _ _
    · have h3 : (setParentEntry
          (modifyNode (setParentEntry t n1.parent n1.name i2) i2 fun n =>
            { n with name := n1.name, parent := n1.parent, exile := n1.exile })
          n2.parent n2.name i1).find pp1
          = some { np1 with children := childSet np1.children n1.name i2 } :=
        (find_setParentEntry_ne fun pp h heq => halias (by rw [heq]; exact h)).trans h2
      have h4 := (find_modifyNode_ne (fun n =>
        { n with name := n2.name, parent := n2.parent, exile := n2.exile })
          hppne.1).trans h3
      rw [h4]
      show childGet (childSet np1.children n1.name i2) n1.name = some i2
      exact childGet_childSet_self _ _ _
  case refine_4 =>
    intro pp2 hpar2
    obtain ⟨np2, hfpp2, hent2⟩ := parentEntry_ok hpm2 pp2 hpar2
    have hppne := hp2 pp2 hpar2
    have h2 : ∃ q, (modifyNode (setParentEntry t n1.parent n1.name i2) i2 fun n =>
        { n with name := n1.name, parent := n1.parent, exile := n1.exile }).find pp2
        = some q := by
      by_cases halias : n1.parent = some pp2
      · obtain ⟨np1, hfpp1, hent1⟩ := parentEntry_ok hpm1 pp2 halias
        exact ⟨_, (find_modifyNode_ne _ hppne.2).trans
          (find_setParentEntry_self _ _ halias hfpp1)⟩
      · exact ⟨np2, (find_modifyNode_ne _ hppne.2).trans
          ((find_setParentEntry_ne fun pp h heq => halias (by rw [heq]; exact h)).trans hfpp2)⟩
    obtain ⟨q, h2q⟩ := h2
    have h3 : (setParentEntry
        (modifyNode (setParentEntry t n1.parent n1.name i2) i2 fun n =>
          { n with name := n1.name, parent := n1.parent, exile := n1.exile })
        n2.parent n2.name i1).find pp2
        = some { q with children := childSet q.children n2.name i1 } :=
      find_setParentEntry_self _ _ hpar2 h2q
    have h4 := (find_modifyNode_ne (fun n =>
      { n with name := n2.name, parent := n2.parent, exile := n2.exile })
        hppne.1).trans h3
    rw [h4]
    show childGet (childSet q.children n2.name i1) n2.name = some i1
    exact childGet_childSet_self _ _ _
  case refine_5 =>
    intro j
    refine (rcOf_modifyNode ?_ j).trans
      ((rcOf_setParentEntry j).trans
        ((rcOf_modifyNode ?_ j).trans (rcOf_setParentEntry j))) <;>
      exact fun _ => rfl
  case refine_6 =>
    intro j
    refine (readersOf_modifyNode ?_ j).trans
      ((readersOf_setParentEntry j).trans
        ((readersOf_modifyNode ?_ j).trans (readersOf_setParentEntry j))) <;>
      exact fun _ => rfl
  case refine_7 =>
    intro j hji1 hji2 hnp1 hnp2
    exact (find_modifyNode_ne _ hji1).trans
      ((find_setParentEntry_ne fun pp h heq => hnp2 (by rw [heq]; exact h)).trans
        ((find_modifyNode_ne _ hji2).trans
          (find_setParentEntry_ne fun pp h heq => hnp1 (by rw [heq]; exact h))))

/-- Witness for C1 on the concrete `/a/b`, `/c/d` scenario: the
exchange swaps the triples of nodes 2 and 4, resolving `/a/b` now
yields node 4 (formerly at `/c/d`) and `/c/d` yields node 2, and the
reference counts of `/a`, `/c` and the root are unchanged. -/
theorem C1_exchange_swap_witness :
    exchange exchTree ⟨some 2, true, 0, false⟩ ⟨some 4, true, 0, false⟩ = .ok exchTreeSwapped ∧
    exchTreeSwapped.find 2 = some ⟨1, "d", some 3, [], false, -1⟩ ∧
    exchTreeSwapped.find 4 = some ⟨1, "b", some 1, [], false, -1⟩ ∧
    (allocClean exchTreeSwapped ["a", "b"]).2 = 4 ∧
    (allocClean exchTreeSwapped ["c", "d"]).2 = 2 ∧
    rcOf exchTreeSwapped 0 = rcOf exchTree 0 ∧
    rcOf exchTreeSwapped 1 = rcOf exchTree 1 ∧
    rcOf exchTreeSwapped 3 = rcOf exchTree 3 := by
  obtain ⟨t4, hok, h1, h2, h3, h4, h5, h6, h7⟩ :=
    @C1_exchange_swap exchTree ⟨some 2, true, 0, false⟩ ⟨some 4, true, 0, false⟩ 2 4
      ⟨1, "b", some 1, [], false, -1⟩ ⟨1, "d", some 3, [], false, -1⟩
      rfl rfl rfl rfl rfl (by decide) (by decide) (by decide) (by decide) (by decide)
      (by decide) (fun pp hpp => by cases hpp; exact ⟨by decide, by decide⟩)
      (fun pp hpp => by cases hpp; exact ⟨by decide, by decide⟩)
  have hconc : exchange exchTree ⟨some 2, true, 0, false⟩ ⟨some 4, true, 0, false⟩
      = .ok exchTreeSwapped := by rfl
  rw [hconc] at hok
  have ht4 : t4 = exchTreeSwapped := (Except.ok.inj hok).symm
  subst ht4
  exact ⟨hconc, h1, h2, by decide, by decide, h5 0, h5 1, h5 3⟩

theorem parentEntryMismatch_true_iff (t : Tree) (op : Option Nat) (name : String) (i : Nat) :
    parentEntryMismatch t op name i = true ↔
      ∃ pp, op = some pp ∧ ((t.find pp).bind fun pn => childGet pn.children name) ≠ some i := by
  cases op with
  | none => simp [parentEntryMismatch]
  | some pp => simp [parentEntryMismatch]

/-- C5: with both locks denoting live nodes, `Exchange` fails fatally
(panics) in exactly these cases: the locks come from different tree
lockers; either lock is not a write lock; a recorded parent's child-map
entry no longer points back at the lock's node; or exactly one of the
two nodes is exiled and that exiled node still has children.  In every
other situation it returns normally. -/
theorem C5_exchange_fatal_iff
    {t : Tree} {p1 p2 : PathLockObj} {i1 i2 : Nat} {n1 n2 : GoNode}
    (hn1 : p1.node = some i1) (hn2 : p2.node = some i2)
    (hf1 : t.find i1 = some n1) (hf2 : t.find i2 = some n2) :
    (∃ e, exchange t p1 p2 = .error e) ↔
      (p1.lockerId ≠ p2.lockerId ∨
       p1.write = false ∨ p2.write = false ∨
       (∃ pp, n1.parent = some pp ∧
         ((t.find pp).bind fun pn => childGet pn.children n1.name) ≠ some i1) ∨
       (∃ pp, n2.parent = some pp ∧
         ((t.find pp).bind fun pn => childGet pn.children n2.name) ≠ some i2) ∨
       (n1.exile = true ∧ n2.exile = false ∧ n1.children ≠ []) ∨
       (n2.exile = true ∧ n1.exile = false ∧ n2.children ≠ [])) := by
  by_cases c1 : p1.lockerId ≠ p2.lockerId
  · exact ⟨fun _ => .inl c1, fun _ =>
      ⟨"must be created from the same TreeLocker", by simp only [exchange, if_pos c1]⟩⟩
  · by_cases c2 : p1.write = true ∧ p2.write = true
    · by_cases c3 : (parentEntryMismatch t n1.parent n1.name i1 = true ∨
          parentEntryMismatch t n2.parent n2.name i2 = true)
      · refine ⟨fun _ => ?_, fun _ => ⟨"children mismatch", ?_⟩⟩
        · cases c3 with
          | inl h =>
            exact .inr (.inr (.inr (.inl ((parentEntryMismatch_true_iff t _ _ _).mp h))))
          | inr h =>
            exact .inr (.inr (.inr (.inr (.inl ((parentEntryMismatch_true_iff t _ _ _).mp h)))))
        · simp only [exchange, if_neg c1, if_neg (not_not_intro c2)]
          rw [hn1, hn2]
          dsimp only
          rw [hf1, hf2]
          dsimp only
          rw [if_pos c3]
      · by_cases c4 : ((n1.exile = true ∧ ¬ (n2.exile = true) ∧ n1.children ≠ []) ∨
            (n2.exile = true ∧ ¬ (n1.exile = true) ∧ n2.children ≠ []))
        · refine ⟨fun _ => ?_, fun _ => ⟨"cannot resurrent exiled tree", ?_⟩⟩
          · cases c4 with
            | inl h =>
              exact .inr (.inr (.inr (.inr (.inr (.inl
                ⟨h.1, Bool.eq_false_iff.mpr h.2.1, h.2.2⟩)))))
            | inr h =>
              exact .inr (.inr (.inr (.inr (.inr (.inr
                ⟨h.1, Bool.eq_false_iff.mpr h.2.1, h.2.2⟩)))))
          · simp only [exchange, if_neg c1, if_neg (not_not_intro c2)]
            rw [hn1, hn2]
            dsimp only
            rw [hf1, hf2]
            dsimp only
            rw [if_neg c3, if_pos c4]
        · have hnoterr : ∀ e, ¬ (exchange t p1 p2 = .error e) := by
            intro e he
            simp only [exchange, if_neg c1, if_neg (not_not_intro c2)] at he
            rw [hn1, hn2] at he
            dsimp only at he
            rw [hf1, hf2] at he
            dsimp only at he
            rw [if_neg c3, if_neg c4] at he
            cases he
          constructor
          · rintro ⟨e, he⟩
            exact absurd he (hnoterr e)
          · rintro (h | h | h | h | h | h | h)
            · exact absurd h c1
            · rw [c2.1] at h
              cases h
            · rw [c2.2] at h
              cases h
            · exact absurd (.inl ((parentEntryMismatch_true_iff t _ _ _).mpr h)) c3
            · exact absurd (.inr ((parentEntryMismatch_true_iff t _ _ _).mpr h)) c3
            · exact absurd (.inl ⟨h.1, by rw [h.2.1]; simp, h.2.2⟩) c4
            · exact absurd (.inr ⟨h.1, by rw [h.2.1]; simp, h.2.2⟩) c4
    · refine ⟨fun _ => ?_, fun _ => ⟨"must be write locks", ?_⟩⟩
      · cases hb1 : p1.write with
        | false => exact .inr (.inl rfl)
        | true =>
          cases hb2 : p2.write with
          | false => exact .inr (.inr (.inl rfl))
          | true => exact absurd ⟨hb1, hb2⟩ c2
      · simp only [exchange, if_neg c1, if_pos c2]

/-- Witness for C5: on the concrete example locker, exchanging with a
read lock in first position is rejected with a panic (no normal
return). -/
theorem C5_exchange_fatal_iff_witness :
    (exchange exchTree ⟨some 2, false, 0, false⟩ ⟨some 4, true, 0, false⟩).isOk = false := by
  obtain ⟨e, he⟩ := (@C5_exchange_fatal_iff exchTree ⟨some 2, false, 0, false⟩
      ⟨some 4, true, 0, false⟩ 2 4 ⟨1, "b", some 1, [], false, -1⟩
      ⟨1, "d", some 3, [], false, -1⟩ rfl rfl (by decide) (by decide)).mpr
    (.inr (.inl rfl))
  rw [he]
  rfl

/-! ### C2: write-path-lock exclusion and sibling concurrency -/

/-- `allocChild` never changes the root id. -/
theorem allocChild_root (t : Tree) (d : Nat) (b : String) :
    (allocChild t d b).1.root = t.root := by
  unfold allocChild
  cases hfd : t.find d with
  | none => rfl
  | some dir =>
    dsimp only
    cases hcg : childGet dir.children b with
    | some c => rfl
    | none => rfl

/-- `allocCleanFrom` never changes the root id. -/
theorem allocCleanFrom_root :
    ∀ (segs : List String) (t : Tree) (d : Nat),
      (allocCleanFrom t d segs).1.root = t.root := by
  intro segs
  induction segs with
  | nil => intro t d; rfl
  | cons b rest ih =>
    intro t d
    show (allocCleanFrom (allocChild t d b).1 (allocChild t d b).2 rest).1.root = t.root
    rw [ih]
    exact allocChild_root t d b

/-- Anatomy of a successful `tryWLockClean`: the allocated target node
comes out write-locked (`readers = -1`), carrying one more reference
than before (the path lock's retain), and the final state has the same
shape as the allocation state. -/
theorem tryWLockClean_ok_some {fuel : Nat} {t : Tree} {segs : List String}
    {t2 : Tree} {pl : PathLockObj}
    (h : tryWLockClean fuel t segs = .ok (t2, some pl)) :
    ∃ na m, (allocClean t segs).1.find (allocClean t segs).2 = some na ∧
      na.rc + 1 ≠ U64MAX ∧
      t2.find (allocClean t segs).2 = some m ∧
      m.readers = -1 ∧ m.rc = na.rc + 1 ∧
      EqShape (allocClean t segs).1 t2 := by
  simp only [tryWLockClean, allocRetainClean] at h
  cases hfa : (allocClean t segs).1.find (allocClean t segs).2 with
  | none =>
    rw [hfa] at h
    dsimp only at h
    have hnone : tryWLockPathF fuel (allocClean t segs).1 (some (allocClean t segs).2)
        = none := by
      simp [tryWLockPathF, hfa]
    rw [hnone] at h
    cases h
  | some na =>
    rw [hfa] at h
    dsimp only at h
    by_cases hU : na.rc = U64MAX
    · rw [if_pos hU] at h
      cases h
    · rw [if_neg hU] at h
      dsimp only at h
      cases htw : tryWLockPathF fuel
          ((allocClean t segs).1.set (allocClean t segs).2 { na with rc := na.rc + 1 })
          (some (allocClean t segs).2) with
      | none =>
        rw [htw] at h
        cases h
      | some tc =>
        rw [htw] at h
        obtain ⟨n, t1, n1, hfn, hnr0, hrp, hf1, hn1r, hcc, htc⟩ := tryWLockPathF_some_eq htw
        have hn : n = { na with rc := na.rc + 1 } := by
          rw [Tree.find_set_self, hfa] at hfn
          exact (Option.some.inj hfn).symm
        have hn1rc : n1.rc = na.rc + 1 := by
          have := chill_rc hcc
          rw [hn] at this
          exact this
        have hfc : tc.find (allocClean t segs).2 = some { n1 with readers := -1 } := by
          rw [htc, Tree.find_set_self, hf1]
          rfl
        simp only [createPathLock, retain] at h
        rw [hfc] at h
        dsimp only at h
        by_cases hU1 : na.rc + 1 = U64MAX
        · rw [if_pos (by rw [hn1rc]; exact hU1 : ({ n1 with readers := -1 } : GoNode).rc = U64MAX)] at h
          cases h
        · rw [if_neg (by rw [hn1rc]; exact hU1 : ¬ ({ n1 with readers := -1 } : GoNode).rc = U64MAX)] at h
          dsimp only at h
          rw [retain_free_cancel fuel tc hfc (by rw [hn1rc]; omega : 1 ≤ ({ n1 with readers := -1 } : GoNode).rc)] at h
          have ht2 : t2 = tc := by
            cases h
            rfl
          refine ⟨na, { n1 with readers := -1 }, rfl, hU1, ?_, rfl, hn1rc, ?_⟩
          · rw [ht2]; exact hfc
          · rw [ht2]
            refine eqShape_trans ?_ (tryWLockPathF_eqButReaders htw).toShape
            exact eqShape_set hfa rfl

/-- While a write path lock on a path is held, a second `tryWLockClean`
on the same path returns no lock: the allocation is deterministic on a
shape-equal state and the target still carries the writer mark `-1`. -/
theorem tryWLockClean_exclusive {fuel : Nat} {t : Tree} {segs : List String}
    {t2 : Tree} {pl : PathLockObj}
    (h : tryWLockClean fuel t segs = .ok (t2, some pl)) :
    ∃ t3, tryWLockClean fuel t2 segs = .ok (t3, none) := by
  obtain ⟨na, m, hfa, hU1, hfm, hmr, hmrc, hsh⟩ := tryWLockClean_ok_some h
  have hroot : t2.root = t.root := by
    rw [← hsh.1]
    exact allocCleanFrom_root segs t t.root
  have hac : allocClean t2 segs = (t2, (allocClean t segs).2) := by
    show allocCleanFrom t2 t2.root segs = _
    rw [hroot]
    exact allocCleanFrom_det segs t t.root t2 hsh
  have hmU : ¬ m.rc = U64MAX := by rw [hmrc]; exact hU1
  have hARC : allocRetainClean t2 segs
      = .ok (t2.set (allocClean t segs).2 { m with rc := m.rc + 1 },
             (allocClean t segs).2) := by
    simp only [allocRetainClean]
    rw [hac]
    dsimp only
    rw [hfm]
    dsimp only
    rw [if_neg hmU]
  have hfind2 : (t2.set (allocClean t segs).2 { m with rc := m.rc + 1 }).find
      (allocClean t segs).2 = some { m with rc := m.rc + 1 } := by
    rw [Tree.find_set_self, hfm]
    rfl
  have hmr2 : ({ m with rc := m.rc + 1 } : GoNode).readers ≠ 0 := by
    show m.readers ≠ 0
    rw [hmr]
    decide
  have hTW : tryWLockPathF fuel (t2.set (allocClean t segs).2 { m with rc := m.rc + 1 })
      (some (allocClean t segs).2) = none := by
    simp only [tryWLockPathF]
    rw [hfind2]
    dsimp only
    rw [if_pos hmr2]
  refine ⟨freeF fuel (t2.set (allocClean t segs).2 { m with rc := m.rc + 1 })
      (some (allocClean t segs).2), ?_⟩
  simp only [tryWLockClean]
  rw [hARC]
  dsimp only
  rw [hTW]

/-- C2: two try-write-path-lock attempts on the same path can never both
succeed — while the first is held the second returns no lock — while
write locks on the sibling paths `/a` and `/b` both succeed
simultaneously, each holding a read lock on the shared root, whose
reader counter equals 2 while both are held. -/
theorem C2_write_path_exclusive :
    (∀ (fuel : Nat) (t : Tree) (segs : List String) (t2 : Tree) (pl : PathLockObj),
        tryWLockClean fuel t segs = .ok (t2, some pl) →
        ∃ t3, tryWLockClean fuel t2 segs = .ok (t3, none)) ∧
    tryWLockClean 2 newTree ["a"] = .ok (lockATree, some ⟨some 1, true, 0, false⟩) ∧
    tryWLockClean 2 lockATree ["b"] = .ok (lockABTree, some ⟨some 2, true, 0, false⟩) ∧
    readersOf lockABTree 0 = 2 ∧
    readersOf lockABTree 1 = -1 ∧ readersOf lockABTree 2 = -1 :=
  ⟨fun _ _ _ _ _ h => tryWLockClean_exclusive h, by rfl, by rfl,
    by decide, by decide, by decide⟩

/-- Concrete instance of C2: with the write lock on `/a` held, a second
try-write on `/a` comes back with no lock, and the root holds two read
locks while `/a` and `/b` are write-locked. -/
theorem C2_write_path_exclusive_witness :
    Except.map Prod.snd (tryWLockClean 2 lockATree ["a"]) = Except.ok none ∧
    readersOf lockABTree 0 = 2 := by
  constructor
  · obtain ⟨t3, h3⟩ := C2_write_path_exclusive.1 2 newTree ["a"] lockATree
      ⟨some 1, true, 0, false⟩ (by rfl)
    rw [h3]
    rfl
  · exact C2_write_path_exclusive.2.2.2.1

/-! ### C4: Split / Join roundtrip -/

/-- A successful `runlockPath` run still succeeds with more fuel. -/
theorem runlockPathF_mono :
    ∀ (fuel : Nat) (oi : Option Nat) (t r : Tree),
      runlockPathF fuel t oi = .ok r → runlockPathF (fuel + 1) t oi = .ok r := by
  intro fuel
  induction fuel with
  | zero =>
    intro oi t r h
    cases oi with
    | none => exact h
    | some i => cases h
  | succ fuel ih =>
    intro oi t r h
    cases oi with
    | none => exact h
    | some i =>
      rw [show runlockPathF (fuel + 1 + 1) t (some i)
          = (match t.find i with
             | none => .ok t
             | some n =>
               match runlockNode t (some i) with
               | .error e => .error e
               | .ok t1 => runlockPathF (fuel + 1) t1 n.parent) from rfl]
      rw [show runlockPathF (fuel + 1) t (some i)
          = (match t.find i with
             | none => .ok t
             | some n =>
               match runlockNode t (some i) with
               | .error e => .error e
               | .ok t1 => runlockPathF fuel t1 n.parent) from rfl] at h
      cases hf : t.find i with
      | none =>
        rw [hf] at h
        exact h
      | some n =>
        rw [hf] at h
        dsimp only at h ⊢
        cases hrn : runlockNode t (some i) with
        | error e =>
          rw [hrn] at h
          dsimp only at h
          cases h
        | ok t1 =>
          rw [hrn] at h
          dsimp only at h ⊢
          exact ih n.parent t1 r h

/-- Releasing a read path lock through `unlockPath` in read mode is the
same as `runlockPath`, fuel premise aside. -/
theorem unlockPathF_of_runlock {fuel : Nat} {t r : Tree} {i : Nat}
    (h : runlockPathF (fuel + 1) t (some i) = .ok r) :
    unlockPathF (fuel + 1) t (some i) false = .ok r := by
  rw [show runlockPathF (fuel + 1) t (some i)
      = (match t.find i with
         | none => .ok t
         | some n =>
           match runlockNode t (some i) with
           | .error e => .error e
           | .ok t1 => runlockPathF fuel t1 n.parent) from rfl] at h
  simp only [unlockPathF]
  cases hf : t.find i with
  | none =>
    rw [hf] at h
    exact h
  | some n =>
    rw [hf] at h
    dsimp only at h ⊢
    show (match runlockNode t (some i) with
          | Except.error e => (Except.error e : Except String Tree)
          | Except.ok t1 => runlockPathF (fuel + 1) t1 n.parent) = Except.ok r
    cases hrn : runlockNode t (some i) with
    | error e =>
      rw [hrn] at h
      dsimp only at h
      cases h
    | ok t1 =>
      rw [hrn] at h
      dsimp only at h ⊢
      exact runlockPathF_mono fuel n.parent t1 r h

/-- Full anatomy of a successful `tryWLockClean`: the returned lock
object, the retained write-locked target, and the exact unlock run that
restores every reader counter to its pre-acquisition value. -/
theorem tryWLockClean_ok_char {fuel : Nat} {t : Tree} {segs : List String}
    {t2 : Tree} {pl : PathLockObj}
    (h : tryWLockClean fuel t segs = .ok (t2, some pl)) :
    ∃ m, pl = ⟨some (allocClean t segs).2, true, t2.lockerId, false⟩ ∧
      t2.find (allocClean t segs).2 = some m ∧
      1 ≤ m.rc ∧ m.rc ≠ U64MAX ∧
      ∃ tb, unlockPathF fuel t2 (some (allocClean t segs).2) true = .ok tb ∧
        ∀ j, readersOf tb j = readersOf t j := by
  simp only [tryWLockClean, allocRetainClean] at h
  cases hfa : (allocClean t segs).1.find (allocClean t segs).2 with
  | none =>
    rw [hfa] at h
    dsimp only at h
    have hnone : tryWLockPathF fuel (allocClean t segs).1 (some (allocClean t segs).2)
        = none := by
      simp [tryWLockPathF, hfa]
    rw [hnone] at h
    cases h
  | some na =>
    rw [hfa] at h
    dsimp only at h
    by_cases hU : na.rc = U64MAX
    · rw [if_pos hU] at h
      cases h
    · rw [if_neg hU] at h
      dsimp only at h
      cases htw : tryWLockPathF fuel
          ((allocClean t segs).1.set (allocClean t segs).2 { na with rc := na.rc + 1 })
          (some (allocClean t segs).2) with
      | none =>
        rw [htw] at h
        cases h
      | some tc =>
        rw [htw] at h
        obtain ⟨n, t1, n1, hfn, hnr0, hrp, hf1, hn1r, hcc, htc⟩ := tryWLockPathF_some_eq htw
        have hn : n = { na with rc := na.rc + 1 } := by
          rw [Tree.find_set_self, hfa] at hfn
          exact (Option.some.inj hfn).symm
        have hn1rc : n1.rc = na.rc + 1 := by
          have := chill_rc hcc
          rw [hn] at this
          exact this
        have hfc : tc.find (allocClean t segs).2 = some { n1 with readers := -1 } := by
          rw [htc, Tree.find_set_self, hf1]
          rfl
        simp only [createPathLock, retain] at h
        rw [hfc] at h
        dsimp only at h
        by_cases hU1 : na.rc + 1 = U64MAX
        · rw [if_pos (by rw [hn1rc]; exact hU1 :
              ({ n1 with readers := -1 } : GoNode).rc = U64MAX)] at h
          cases h
        · rw [if_neg (by rw [hn1rc]; exact hU1 :
              ¬ ({ n1 with readers := -1 } : GoNode).rc = U64MAX)] at h
          dsimp only at h
          rw [retain_free_cancel fuel tc hfc (by rw [hn1rc]; omega :
              1 ≤ ({ n1 with readers := -1 } : GoNode).rc)] at h
          have ht2 : t2 = tc := by
            cases h
            rfl
          have hpl : pl = ⟨some (allocClean t segs).2, true, tc.lockerId, false⟩ := by
            cases h
            rfl
          refine ⟨{ n1 with readers := -1 }, ?_, ?_, ?_, ?_, ?_⟩
          · rw [hpl, ht2]
          · rw [ht2]
            exact hfc
          · show 1 ≤ n1.rc
            rw [hn1rc]
            omega
          · show n1.rc ≠ U64MAX
            rw [hn1rc]
            exact hU1
          · refine ⟨(allocClean t segs).1.set (allocClean t segs).2 { na with rc := na.rc + 1 },
              ?_, ?_⟩
            · rw [ht2]
              exact tryWLockPathF_unlock htw
            · intro j
              have h1 : readersOf ((allocClean t segs).1.set (allocClean t segs).2
                  { na with rc := na.rc + 1 }) j = readersOf (allocClean t segs).1 j := by
                refine readersOf_set hfa ?_ j
                rfl
              rw [h1]
              exact allocCleanFrom_readersOf segs t t.root j

/-- Full anatomy of a successful `tryRLockClean`, the read-mode
counterpart of the write characterization. -/
theorem tryRLockClean_ok_char {fuel : Nat} {t : Tree} {segs : List String}
    {t2 : Tree} {pl : PathLockObj}
    (h : tryRLockClean fuel t segs = .ok (t2, some pl)) :
    ∃ m, pl = ⟨some (allocClean t segs).2, false, t2.lockerId, false⟩ ∧
      t2.find (allocClean t segs).2 = some m ∧
      1 ≤ m.rc ∧ m.rc ≠ U64MAX ∧
      ∃ tb, unlockPathF fuel t2 (some (allocClean t segs).2) false = .ok tb ∧
        ∀ j, readersOf tb j = readersOf t j := by
  simp only [tryRLockClean, allocRetainClean] at h
  cases hfa : (allocClean t segs).1.find (allocClean t segs).2 with
  | none =>
    rw [hfa] at h
    dsimp only at h
    have hnone : tryRLockPathF fuel (allocClean t segs).1 (some (allocClean t segs).2)
        = none := by
      cases fuel with
      | zero => rfl
      | succ f => simp [tryRLockPathF, hfa]
    rw [hnone] at h
    cases h
  | some na =>
    rw [hfa] at h
    dsimp only at h
    by_cases hU : na.rc = U64MAX
    · rw [if_pos hU] at h
      cases h
    · rw [if_neg hU] at h
      dsimp only at h
      cases htr : tryRLockPathF fuel
          ((allocClean t segs).1.set (allocClean t segs).2 { na with rc := na.rc + 1 })
          (some (allocClean t segs).2) with
      | none =>
        rw [htr] at h
        cases h
      | some tc =>
        rw [htr] at h
        obtain ⟨fuel2, n, t1, n1, hfl, hfn, hrp, hf1, hge, hmax, hcc, htc⟩ :=
          tryRLockPathF_some_eq htr
        have hn : n = { na with rc := na.rc + 1 } := by
          rw [Tree.find_set_self, hfa] at hfn
          exact (Option.some.inj hfn).symm
        have hn1rc : n1.rc = na.rc + 1 := by
          have := chill_rc hcc
          rw [hn] at this
          exact this
        have hfc : tc.find (allocClean t segs).2
            = some { n1 with readers := n1.readers + 1 } := by
          rw [htc, Tree.find_set_self, hf1]
          rfl
        simp only [createPathLock, retain] at h
        rw [hfc] at h
        dsimp only at h
        by_cases hU1 : na.rc + 1 = U64MAX
        · rw [if_pos (by rw [hn1rc]; exact hU1 :
              ({ n1 with readers := n1.readers + 1 } : GoNode).rc = U64MAX)] at h
          cases h
        · rw [if_neg (by rw [hn1rc]; exact hU1 :
              ¬ ({ n1 with readers := n1.readers + 1 } : GoNode).rc = U64MAX)] at h
          dsimp only at h
          rw [retain_free_cancel fuel tc hfc (by rw [hn1rc]; omega :
              1 ≤ ({ n1 with readers := n1.readers + 1 } : GoNode).rc)] at h
          have ht2 : t2 = tc := by
            cases h
            rfl
          have hpl : pl = ⟨some (allocClean t segs).2, false, tc.lockerId, false⟩ := by
            cases h
            rfl
          refine ⟨{ n1 with readers := n1.readers + 1 }, ?_, ?_, ?_, ?_, ?_⟩
          · rw [hpl, ht2]
          · rw [ht2]
            exact hfc
          · show 1 ≤ n1.rc
            rw [hn1rc]
            omega
          · show n1.rc ≠ U64MAX
            rw [hn1rc]
            exact hU1
          · refine ⟨(allocClean t segs).1.set (allocClean t segs).2 { na with rc := na.rc + 1 },
              ?_, ?_⟩
            · have hrun := tryRLockPathF_runlock fuel (some (allocClean t segs).2)
                ((allocClean t segs).1.set (allocClean t segs).2 { na with rc := na.rc + 1 })
                tc htr
              rw [ht2, hfl]
              rw [hfl] at hrun
              exact unlockPathF_of_runlock hrun
            · intro j
              have h1 : readersOf ((allocClean t segs).1.set (allocClean t segs).2
                  { na with rc := na.rc + 1 }) j = readersOf (allocClean t segs).1 j := by
                refine readersOf_set hfa ?_ j
                rfl
              rw [h1]
              exact allocCleanFrom_readersOf segs t t.root j

/-- Freeing the nil node is a no-op. -/
theorem freeF_none (fuel : Nat) (t : Tree) : freeF fuel t none = t := by
  cases fuel <;> rfl

/-- Splitting a live, retained path lock and joining the pieces back
restores the exact original state and reproduces the original lock
object: the parent piece is a read lock on the parent, the node piece
keeps the original node and mode, and the retain/free pairs cancel. -/
theorem split_join_roundtrip {fuel : Nat} {t : Tree} {i : Nat} {m : GoNode} (w : Bool)
    (hfm : t.find i = some m) (hm1 : 1 ≤ m.rc) (hmU : m.rc ≠ U64MAX)
    (hpar : ∀ p, m.parent = some p → p ≠ i ∧
      ∃ np, t.find p = some np ∧ 1 ≤ np.rc ∧ np.rc ≠ U64MAX) :
    ∃ t1, split fuel t ⟨some i, w, t.lockerId, false⟩
        = .ok (t1, ⟨m.parent, false, t.lockerId, false⟩, ⟨some i, w, t.lockerId, false⟩) ∧
      join fuel t1 ⟨m.parent, false, t.lockerId, false⟩ ⟨some i, w, t.lockerId, false⟩
        = .ok (t, ⟨some i, w, t.lockerId, false⟩) := by
  have hret : retain t (some i) = .ok (t.set i { m with rc := m.rc + 1 }) := by
    simp only [retain]
    rw [hfm]
    dsimp only
    rw [if_neg hmU]
  cases hp : m.parent with
  | none =>
    refine ⟨t, ?_, ?_⟩
    · show (match createPathLock t (((t.find i).map GoNode.parent).getD none) false with
            | Except.error e =>
              (Except.error e : Except String (Tree × PathLockObj × NodeLockObj))
            | Except.ok (t1, parentLock) =>
              match createNodeLock t1 (some i) w with
              | Except.error e => Except.error e
              | Except.ok (t2, nodeLock) =>
                Except.ok (freeF fuel t2 (some i), parentLock, nodeLock))
          = Except.ok (t, ⟨none, false, t.lockerId, false⟩,
              ⟨some i, w, t.lockerId, false⟩)
      rw [show ((t.find i).map GoNode.parent).getD none = (none : Option Nat) from by
        rw [hfm]
        exact hp]
      rw [show createPathLock t none false
          = Except.ok (t, (⟨none, false, t.lockerId, false⟩ : PathLockObj)) from rfl]
      dsimp only
      rw [show createNodeLock t (some i) w
          = Except.ok (t.set i { m with rc := m.rc + 1 },
              (⟨some i, w, t.lockerId, false⟩ : NodeLockObj)) from by
        simp only [createNodeLock]
        rw [hret]]
      dsimp only
      rw [retain_free_cancel fuel t hfm hm1]
    · show (if t.lockerId ≠ t.lockerId then
              (Except.error "must be created from the same TreeLocker"
                : Except String (Tree × PathLockObj))
            else
              match t.find i with
              | none => Except.error "dangling node"
              | some n =>
                if n.parent ≠ (none : Option Nat) then
                  Except.error "parent pathlock is not parent of the nodelock"
                else
                  match createPathLock t (some i) w with
                  | Except.error e => Except.error e
                  | Except.ok (t1, joined) =>
                    Except.ok (freeF fuel (freeF fuel t1 (some i)) (none : Option Nat),
                      joined))
          = Except.ok (t, ⟨some i, w, t.lockerId, false⟩)
      rw [if_neg (show ¬ (t.lockerId ≠ t.lockerId) from fun hh => hh rfl)]
      rw [hfm]
      dsimp only
      rw [if_neg (show ¬ (m.parent ≠ (none : Option Nat)) from fun hh => hh hp)]
      rw [show createPathLock t (some i) w
          = Except.ok (t.set i { m with rc := m.rc + 1 },
              (⟨some i, w, t.lockerId, false⟩ : PathLockObj)) from by
        simp only [createPathLock]
        rw [hret]]
      dsimp only
      rw [retain_free_cancel fuel t hfm hm1]
      rw [freeF_none]
  | some p =>
    obtain ⟨hpi, np, hfp, hnp1, hnpU⟩ := hpar p hp
    have hfind1 : (t.set p { np with rc := np.rc + 1 }).find i = some m := by
      rw [Tree.find_set_ne t _ (Ne.symm hpi)]
      exact hfm
    have hret1 : retain (t.set p { np with rc := np.rc + 1 }) (some i)
        = .ok ((t.set p { np with rc := np.rc + 1 }).set i { m with rc := m.rc + 1 }) := by
      simp only [retain]
      rw [hfind1]
      dsimp only
      rw [if_neg hmU]
    refine ⟨t.set p { np with rc := np.rc + 1 }, ?_, ?_⟩
    · show (match createPathLock t (((t.find i).map GoNode.parent).getD none) false with
            | Except.error e =>
              (Except.error e : Except String (Tree × PathLockObj × NodeLockObj))
            | Except.ok (t1, parentLock) =>
              match createNodeLock t1 (some i) w with
              | Except.error e => Except.error e
              | Except.ok (t2, nodeLock) =>
                Except.ok (freeF fuel t2 (some i), parentLock, nodeLock))
          = Except.ok (t.set p { np with rc := np.rc + 1 },
              ⟨some p, false, t.lockerId, false⟩, ⟨some i, w, t.lockerId, false⟩)
      rw [show ((t.find i).map GoNode.parent).getD none = (some p : Option Nat) from by
        rw [hfm]
        exact hp]
      rw [show createPathLock t (some p) false
          = Except.ok (t.set p { np with rc := np.rc + 1 },
              (⟨some p, false, t.lockerId, false⟩ : PathLockObj)) from by
        simp only [createPathLock, retain]
        rw [hfp]
        dsimp only
        rw [if_neg hnpU]]
      dsimp only
      rw [show createNodeLock (t.set p { np with rc := np.rc + 1 }) (some i) w
          = Except.ok ((t.set p { np with rc := np.rc + 1 }).set i { m with rc := m.rc + 1 },
              (⟨some i, w, t.lockerId, false⟩ : NodeLockObj)) from by
        simp only [createNodeLock]
        rw [hret1]
        rfl]
      dsimp only
      rw [retain_free_cancel fuel (t.set p { np with rc := np.rc + 1 }) hfind1 hm1]
    · show (if t.lockerId ≠ t.lockerId then
              (Except.error "must be created from the same TreeLocker"
                : Except String (Tree × PathLockObj))
            else
              match (t.set p { np with rc := np.rc + 1 }).find i with
              | none => Except.error "dangling node"
              | some n =>
                if n.parent ≠ (some p : Option Nat) then
                  Except.error "parent pathlock is not parent of the nodelock"
                else
                  match createPathLock (t.set p { np with rc := np.rc + 1 }) (some i) w with
                  | Except.error e => Except.error e
                  | Except.ok (t1, joined) =>
                    Except.ok (freeF fuel (freeF fuel t1 (some i)) (some p : Option Nat),
                      joined))
          = Except.ok (t, ⟨some i, w, t.lockerId, false⟩)
      rw [if_neg (show ¬ (t.lockerId ≠ t.lockerId) from fun hh => hh rfl)]
      rw [hfind1]
      dsimp only
      rw [if_neg (show ¬ (m.parent ≠ (some p : Option Nat)) from fun hh => hh hp)]
      rw [show createPathLock (t.set p { np with rc := np.rc + 1 }) (some i) w
          = Except.ok ((t.set p { np with rc := np.rc + 1 }).set i { m with rc := m.rc + 1 },
              (⟨some i, w, t.lockerId, false⟩ : PathLockObj)) from by
        simp only [createPathLock]
        rw [hret1]
        rfl]
      dsimp only
      rw [retain_free_cancel fuel (t.set p { np with rc := np.rc + 1 }) hfind1 hm1]
      rw [retain_free_cancel fuel t hfp hnp1]

/-- C4: for a path lock `pl` held via a clean try-lock in either mode
(on a target whose recorded parent is live, retained, and distinct from
the target), `join` applied to the pair returned by `split pl` succeeds
and returns the exact pre-split state together with a lock object equal
to `pl` — the same nodes locked in the same modes, the target in the
original mode, the split parent piece a read lock — and unlocking the
joined lock restores every node's reader counter to its value before
`pl` was first acquired. -/
theorem C4_split_join_roundtrip {fuel : Nat} {t0 : Tree} {segs : List String}
    {t : Tree} {pl : PathLockObj}
    (hacq : tryWLockClean fuel t0 segs = .ok (t, some pl) ∨
            tryRLockClean fuel t0 segs = .ok (t, some pl))
    (hpar : ∀ m p, t.find (allocClean t0 segs).2 = some m → m.parent = some p →
      p ≠ (allocClean t0 segs).2 ∧
        ∃ np, t.find p = some np ∧ 1 ≤ np.rc ∧ np.rc ≠ U64MAX) :
    ∃ t1 ppl nl, split fuel t pl = .ok (t1, ppl, nl) ∧
      ppl.write = false ∧ nl.node = pl.node ∧ nl.write = pl.write ∧
      join fuel t1 ppl nl = .ok (t, pl) ∧
      ∃ tF plF, pathLockUnlock fuel t pl = .ok (tF, plF) ∧
        ∀ j, readersOf tF j = readersOf t0 j := by
  cases hacq with
  | inl hw =>
    obtain ⟨m, hpl, hfm, hm1, hmU, tb, hub, hrb⟩ := tryWLockClean_ok_char hw
    subst hpl
    obtain ⟨t1, hsplit, hjoin⟩ := split_join_roundtrip true hfm hm1 hmU
      (fun p hp => hpar m p hfm hp)
    refine ⟨t1, ⟨m.parent, false, t.lockerId, false⟩,
      ⟨some (allocClean t0 segs).2, true, t.lockerId, false⟩,
      hsplit, rfl, rfl, rfl, hjoin, ?_⟩
    refine ⟨freeF fuel tb (some (allocClean t0 segs).2),
      ⟨some (allocClean t0 segs).2, true, t.lockerId, true⟩, ?_, ?_⟩
    · show (match unlockPathF fuel t (some (allocClean t0 segs).2) true with
            | Except.error e => (Except.error e : Except String (Tree × PathLockObj))
            | Except.ok t1 =>
              Except.ok (freeF fuel t1 (some (allocClean t0 segs).2),
                (⟨some (allocClean t0 segs).2, true, t.lockerId, true⟩ : PathLockObj)))
          = Except.ok (freeF fuel tb (some (allocClean t0 segs).2),
              ⟨some (allocClean t0 segs).2, true, t.lockerId, true⟩)
      rw [hub]
    · intro j
      rw [freeF_readersOf]
      exact hrb j
  | inr hr =>
    obtain ⟨m, hpl, hfm, hm1, hmU, tb, hub, hrb⟩ := tryRLockClean_ok_char hr
    subst hpl
    obtain ⟨t1, hsplit, hjoin⟩ := split_join_roundtrip false hfm hm1 hmU
      (fun p hp => hpar m p hfm hp)
    refine ⟨t1, ⟨m.parent, false, t.lockerId, false⟩,
      ⟨some (allocClean t0 segs).2, false, t.lockerId, false⟩,
      hsplit, rfl, rfl, rfl, hjoin, ?_⟩
    refine ⟨freeF fuel tb (some (allocClean t0 segs).2),
      ⟨some (allocClean t0 segs).2, false, t.lockerId, true⟩, ?_, ?_⟩
    · show (match unlockPathF fuel t (some (allocClean t0 segs).2) false with
            | Except.error e => (Except.error e : Except String (Tree × PathLockObj))
            | Except.ok t1 =>
              Except.ok (freeF fuel t1 (some (allocClean t0 segs).2),
                (⟨some (allocClean t0 segs).2, false, t.lockerId, true⟩ : PathLockObj)))
          = Except.ok (freeF fuel tb (some (allocClean t0 segs).2),
              ⟨some (allocClean t0 segs).2, false, t.lockerId, true⟩)
      rw [hub]
    · intro j
      rw [freeF_readersOf]
      exact hrb j

/-- Concrete instance of C4: splitting the held write lock on `/a` and
joining the pieces lands back exactly in the held state with the
original lock object, and unlocking leaves every reader counter zero,
its value before acquisition. -/
theorem C4_split_join_roundtrip_witness :
    join 2 splitATree ⟨some 0, false, 0, false⟩ ⟨some 1, true, 0, false⟩
      = .ok (lockATree, ⟨some 1, true, 0, false⟩) ∧
    readersOf unlockedATree 0 = 0 ∧ readersOf unlockedATree 1 = 0 := by
  obtain ⟨t1, ppl, nl, hsplit, hpw, hnn, hnw, hjoin, tF, plF, hun, hread⟩ :=
    @C4_split_join_roundtrip 2 newTree ["a"] lockATree ⟨some 1, true, 0, false⟩
      (Or.inl (by rfl :
        tryWLockClean 2 newTree ["a"] = .ok (lockATree, some ⟨some 1, true, 0, false⟩)))
      (by
        intro m p hfm hp
        have hm : some (⟨1, "a", some 0, [], false, -1⟩ : GoNode) = some m := hfm
        cases hm
        have hp2 : (some 0 : Option Nat) = some p := hp
        cases hp2
        exact ⟨by decide, ⟨1, "", none, [("a", 1)], false, 1⟩, rfl, by decide, by decide⟩)
  have hs : split 2 lockATree ⟨some 1, true, 0, false⟩
      = .ok (splitATree, ⟨some 0, false, 0, false⟩, ⟨some 1, true, 0, false⟩) := by rfl
  rw [hsplit] at hs
  cases hs
  have hu : pathLockUnlock 2 lockATree ⟨some 1, true, 0, false⟩
      = .ok (unlockedATree, ⟨some 1, true, 0, true⟩) := by rfl
  rw [hun] at hu
  cases hu
  exact ⟨hjoin, (hread 0).trans (by decide), (hread 1).trans (by decide)⟩
end TreeLock
